import Mathlib

/-!
Verification development for the cpp-spreadsheet engine: a shallow embedding
of the dependency-tracking spreadsheet (sheet.cpp, cell.cpp, formula.cpp)
with the missing support files (common.h, FormulaAST.cpp — Position,
FormulaError, the formula parser/AST) modelled from the specification.
Machine doubles are modelled by exact rationals; parsing a cell's string
value as a double is an abstract parameter `pn` of the evaluation functions.
-/

/-- Position from common.h (file not in the repository sources).
Modelled from the spec: `(row, col)` with `0 ≤ row < 16384`, `0 ≤ col < 16384`;
equality and ordering lexicographic. -/
structure Position where
  row : Int
  col : Int
deriving DecidableEq, Repr

/-- Modelled from the spec: validity predicate of Position (common.h is not in
the repository sources): non-negative and below the 16384 bound in both
coordinates. -/
def Position.IsValid (p : Position) : Prop :=
  0 ≤ p.row ∧ p.row < 16384 ∧ 0 ≤ p.col ∧ p.col < 16384

instance (p : Position) : Decidable p.IsValid := by
  unfold Position.IsValid; infer_instance

/-- Modelled from the spec: lexicographic `(row, col)` order of Position
(`operator<` of common.h, which is not in the repository sources). -/
def posLt (p q : Position) : Prop :=
  p.row < q.row ∨ (p.row = q.row ∧ p.col < q.col)

instance (p q : Position) : Decidable (posLt p q) := by
  unfold posLt; infer_instance

/-- FormulaError categories (common.h declaration; kinds per the spec). -/
inductive FormulaError where
  | Ref
  | Value
  | Div0
deriving DecidableEq, Repr

/-- `operator<<(std::ostream&, FormulaError)` from formula.cpp lines 12–14:
the implementation prints the same token for every error kind. -/
def printFormulaError (_ : FormulaError) : String :=
  "#DIV/0!"

/-- FormulaInterface::Value = variant<double, FormulaError>, doubles as exact
rationals. -/
inductive FValue where
  | num (d : Rat)
  | ferr (e : FormulaError)
deriving DecidableEq, Repr

/-- CellInterface::Value = variant<string, double, FormulaError>. -/
inductive CellValue where
  | str (s : String)
  | num (d : Rat)
  | ferr (e : FormulaError)
deriving DecidableEq, Repr

/-- The variant<double,FormulaError> to variant<string,double,FormulaError>
conversion done by `std::visit` in Cell::FormulaImpl::GetValue. -/
def FValue.toCellValue : FValue → CellValue
  | .num d => .num d
  | .ferr e => .ferr e

/-- ASTImpl::Expr, modelled from the spec (FormulaAST.cpp is not in the
repository sources): arithmetic `+ - * /`, unary minus, literals and cell
references. -/
inductive Expr where
  | num (d : Rat)
  | ref (p : Position)
  | add (l r : Expr)
  | sub (l r : Expr)
  | mul (l r : Expr)
  | div (l r : Expr)
  | neg (e : Expr)
deriving DecidableEq, Repr

/-- FormulaAST::GetCells, modelled from the spec: the referenced positions in
source order, possibly with duplicates and possibly with invalid positions. -/
def Expr.positions : Expr → List Position
  | .num _ => []
  | .ref p => [p]
  | .add l r => l.positions ++ r.positions
  | .sub l r => l.positions ++ r.positions
  | .mul l r => l.positions ++ r.positions
  | .div l r => l.positions ++ r.positions
  | .neg e => e.positions

/-- Insertion into the ordered duplicate-free list that models the
`std::set<Position>` of Formula::GetReferencedCells. -/
def insertPos (p : Position) : List Position → List Position
  | [] => [p]
  | q :: rest =>
    if posLt p q then p :: q :: rest
    else if posLt q p then q :: insertPos p rest
    else q :: rest

/-- Formula::GetReferencedCells from formula.cpp lines 96–107: the valid
positions of the expression collected into a `std::set` (sorted ascending,
duplicates removed). -/
def GetReferencedCells (e : Expr) : List Position :=
  e.positions.foldl (fun acc q => if q.IsValid then insertPos q acc else acc) []

/-- The escape character of text cells (common.h ESCAPE_SIGN). -/
def ESCAPE_SIGN : Char := Char.ofNat 39

/-- The formula marker (common.h FORMULA_SIGN). -/
def FORMULA_SIGN : Char := Char.ofNat 61

/-- Column letters of Position::ToString, modelled from the spec (common.h is
not in the repository sources): bijective base-26, A..Z, AA..ZZ, … The first
argument is recursion fuel, always sufficient at `c + 1`. -/
def colLettersAux : Nat → Nat → String
  | 0, _ => ""
  | f + 1, c =>
    if c < 26 then String.singleton (Char.ofNat (65 + c))
    else colLettersAux f (c / 26 - 1) ++ String.singleton (Char.ofNat (65 + c % 26))

/-- Position::ToString, modelled from the spec: column letters then the
1-based row; empty for an invalid position. -/
def Position.toDisplayString (p : Position) : String :=
  if p.IsValid then colLettersAux (p.col.toNat + 1) p.col.toNat ++ toString (p.row.toNat + 1)
  else ""

/-- Rendering of a rational literal (spec-modelled; formula literals in the
claims are integers). -/
def ratStr (q : Rat) : String :=
  if q.den = 1 then toString q.num else toString q.num ++ "/" ++ toString q.den

/-- Canonical printing of an expression with minimal parenthesisation,
modelled from the spec (FormulaAST::PrintFormula is not in the repository
sources). The second argument is the precedence of the context. -/
def printExprP : Expr → Nat → String
  | .num q, _ => ratStr q
  | .ref p, _ => p.toDisplayString
  | .add l r, prec =>
    let s := printExprP l 1 ++ "+" ++ printExprP r 2
    if 1 < prec then "(" ++ s ++ ")" else s
  | .sub l r, prec =>
    let s := printExprP l 1 ++ "-" ++ printExprP r 2
    if 1 < prec then "(" ++ s ++ ")" else s
  | .mul l r, prec =>
    let s := printExprP l 2 ++ "*" ++ printExprP r 3
    if 2 < prec then "(" ++ s ++ ")" else s
  | .div l r, prec =>
    let s := printExprP l 2 ++ "/" ++ printExprP r 3
    if 2 < prec then "(" ++ s ++ ")" else s
  | .neg e, prec =>
    let s := "-" ++ printExprP e 3
    if 3 < prec then "(" ++ s ++ ")" else s

/-- GetExpression: canonical printed form of the expression tree. -/
def printExpr (e : Expr) : String :=
  printExprP e 0

/-- Decimal digit test on characters. -/
def isDigitC (c : Char) : Bool :=
  48 ≤ c.toNat && c.toNat ≤ 57

/-- Upper-case letter test on characters. -/
def isUpperC (c : Char) : Bool :=
  65 ≤ c.toNat && c.toNat ≤ 90

/-- Accumulate a leading run of decimal digits. -/
def digitsVal : List Char → Nat → Nat × List Char
  | [], acc => (acc, [])
  | c :: cs, acc =>
    if isDigitC c then digitsVal cs (acc * 10 + (c.toNat - 48)) else (acc, c :: cs)

/-- Accumulate a leading run of upper-case letters bijective-base-26 style
(A = 1): Position::FromString column arithmetic. -/
def lettersVal : List Char → Nat → Nat × List Char
  | [], acc => (acc, [])
  | c :: cs, acc =>
    if isUpperC c then lettersVal cs (acc * 26 + (c.toNat - 64)) else (acc, c :: cs)

/-- The grammar level being parsed: a sum, a product, a factor, or the
continuation loops carrying the expression parsed so far. -/
inductive ParseMode where
  | expr
  | exprLoop (acc : Expr)
  | term
  | termLoop (acc : Expr)
  | factor
deriving Repr

/-- Recursive-descent formula parser, modelled from the spec (the
lexer/parser of FormulaAST.cpp is not in the repository sources): `+ - * /`
with standard precedence, strict left-to-right association, unary `+`/`-`,
parentheses, integer literals and cell references. The first argument is
recursion fuel. -/
def parseP : Nat → ParseMode → List Char → Option (Expr × List Char)
  | 0, _, _ => none
  | f + 1, m, cs =>
    match m with
    | .expr => (parseP f .term cs).bind fun er => parseP f (.exprLoop er.1) er.2
    | .exprLoop acc =>
      match cs with
      | c :: cs' =>
        if c = Char.ofNat 43 then
          (parseP f .term cs').bind fun er => parseP f (.exprLoop (.add acc er.1)) er.2
        else if c = Char.ofNat 45 then
          (parseP f .term cs').bind fun er => parseP f (.exprLoop (.sub acc er.1)) er.2
        else some (acc, c :: cs')
      | [] => some (acc, [])
    | .term => (parseP f .factor cs).bind fun er => parseP f (.termLoop er.1) er.2
    | .termLoop acc =>
      match cs with
      | c :: cs' =>
        if c = Char.ofNat 42 then
          (parseP f .factor cs').bind fun er => parseP f (.termLoop (.mul acc er.1)) er.2
        else if c = Char.ofNat 47 then
          (parseP f .factor cs').bind fun er => parseP f (.termLoop (.div acc er.1)) er.2
        else some (acc, c :: cs')
      | [] => some (acc, [])
    | .factor =>
      match cs with
      | [] => none
      | c :: cs' =>
        if c = Char.ofNat 45 then
          (parseP f .factor cs').map fun er => (.neg er.1, er.2)
        else if c = Char.ofNat 43 then
          parseP f .factor cs'
        else if c = Char.ofNat 40 then
          (parseP f .expr cs').bind fun er =>
            match er.2 with
            | d :: cs'' => if d = Char.ofNat 41 then some (er.1, cs'') else none
            | [] => none
        else if isDigitC c then
          let dr := digitsVal (c :: cs') 0
          some (.num (dr.1 : Rat), dr.2)
        else if isUpperC c then
          let lr := lettersVal (c :: cs') 0
          match lr.2 with
          | d :: _ =>
            if isDigitC d then
              let dr := digitsVal lr.2 0
              some (.ref ⟨(dr.1 : Int) - 1, (lr.1 : Int) - 1⟩, dr.2)
            else none
          | [] => none
        else none

/-- ParseFormula / ParseFormulaAST: parse a formula body (the text after the
leading `=`); `none` models a ParsingError, surfaced as FormulaException. -/
def parseFormula (s : String) : Option Expr :=
  match parseP ((s.length + 1) * 8) .expr s.toList with
  | some (e, []) => some e
  | _ => none

/-- The content variants of cell.h (EmptyImpl, TextImpl, FormulaImpl); the
formula variant carries the mutable evaluation cache of FormulaImpl. -/
inductive CellImpl where
  | empty
  | text (s : String)
  | formula (e : Expr) (cache : Option FValue)
deriving DecidableEq, Repr

/-- Cell of cell.h: the impl variant, the outgoing dependency edges
`using_cells_` (cells this one references) and the incoming edges
`calculated_cells_` (cells whose formulas reference this one). The C++
`Cell*` identities are rendered as grid positions; each slot of the grid
holds at most one cell so the rendering is faithful. -/
structure Cell where
  impl : CellImpl
  usingCells : List Position
  calculatedCells : List Position
deriving DecidableEq, Repr

/-- Sheet::cells_, the ragged two-dimensional grid of owned cell slots
(`std::vector<std::vector<std::unique_ptr<Cell>>>`): a missing inner entry is
a slot outside the materialized extent, a `none` entry is an empty slot. -/
abbrev Sheet := List (List (Option Cell))

/-- Impl::GetText through the variants: EmptyImpl yields the empty string,
TextImpl the stored text, FormulaImpl `"=" + GetExpression()`. -/
def CellImpl.getText : CellImpl → String
  | .empty => ""
  | .text s => s
  | .formula e _ => String.singleton FORMULA_SIGN ++ printExpr e

/-- Cell::GetText. -/
def Cell.getText (c : Cell) : String :=
  c.impl.getText

/-- Impl::GetReferencedCells through the variants: only FormulaImpl delegates
to Formula::GetReferencedCells, the base implementation returns the empty
list. -/
def CellImpl.referencedCells : CellImpl → List Position
  | .empty => []
  | .text _ => []
  | .formula e _ => GetReferencedCells e

/-- Impl::HasCache through the variants: the base implementation (EmptyImpl,
TextImpl) answers true, FormulaImpl answers whether the cache holds a
value. -/
def CellImpl.hasCache : CellImpl → Bool
  | .empty => true
  | .text _ => true
  | .formula _ cache => cache.isSome

/-- Impl::ResetCache through the variants: a no-op except on FormulaImpl,
which drops the cached value. -/
def CellImpl.resetCache : CellImpl → CellImpl
  | .empty => .empty
  | .text s => .text s
  | .formula e _ => .formula e none

/-- The cached value of a variant (empty for the cache-free variants). -/
def CellImpl.cacheOf : CellImpl → Option FValue
  | .empty => none
  | .text _ => none
  | .formula _ cache => cache

/-- The slot of the grid at a position: `none` when the position is outside
the materialized extent, `some none` when the slot is inside the extent but
holds no cell. Only meaningful for valid positions (the C++ code reaches the
grid only behind an IsValid check). -/
def slotAt (g : Sheet) (p : Position) : Option (Option Cell) :=
  match g.get? p.row.toNat with
  | none => none
  | some row => row.get? p.col.toNat

/-- The cell at a position: the occupied slot content behind the validity
guard. -/
def cellAt (g : Sheet) (p : Position) : Option Cell :=
  if p.IsValid then
    match slotAt g p with
    | some (some c) => some c
    | _ => none
  else none

/-- The `using_cells_` list of the cell at a position (empty if absent). -/
def usingAt (g : Sheet) (p : Position) : List Position :=
  match cellAt g p with
  | some c => c.usingCells
  | none => []

/-- The `calculated_cells_` list of the cell at a position (empty if
absent). -/
def calcAt (g : Sheet) (p : Position) : List Position :=
  match cellAt g p with
  | some c => c.calculatedCells
  | none => []

/-- The referenced cells of the cell at a position (empty if absent: the
cycle search tolerates references to positions not yet materialized,
treating them as having no outgoing edges). -/
def refsAt (g : Sheet) (p : Position) : List Position :=
  match cellAt g p with
  | some c => c.impl.referencedCells
  | none => []

/-- Rewrite the cell at an occupied slot in place (a mutation of the C++
cell object through its stable address). -/
def updateCell (g : Sheet) (p : Position) (f : Cell → Cell) : Sheet :=
  if p.IsValid then
    match g.get? p.row.toNat with
    | none => g
    | some row =>
      match row.get? p.col.toNat with
      | some (some c) => g.set p.row.toNat (row.set p.col.toNat (some (f c)))
      | _ => g
  else g

/-- Overwrite a slot that is inside the materialized extent. -/
def setSlot (g : Sheet) (p : Position) (v : Option Cell) : Sheet :=
  if p.IsValid then
    match g.get? p.row.toNat with
    | none => g
    | some row => g.set p.row.toNat (row.set p.col.toNat v)
  else g

/-- Pad a list at the back up to a length. -/
def padTo (n : Nat) (pad : α) (l : List α) : List α :=
  l ++ List.replicate (n - l.length) pad

/-- The two `resize` calls of Sheet::SetCell (sheet.cpp lines 32–33): grow the
outer vector to cover the row and that row to cover the column; never
shrinks. -/
def resizeFor (g : Sheet) (p : Position) : Sheet :=
  let rn := p.row.toNat
  let g' := padTo (max (rn + 1) g.length) [] g
  match g'.get? rn with
  | some row => g'.set rn (padTo (max (p.col.toNat + 1) row.length) none row)
  | none => g'

/-- A freshly constructed Cell (cell.cpp constructor): EmptyImpl, no
edges. -/
def freshCell : Cell :=
  { impl := .empty, usingCells := [], calculatedCells := [] }

/-- Sheet::GetCell (non-const, sheet.cpp lines 55–68) behind the validity
check: the slot content inside the materialized extent — `none` both outside
the extent and for an empty slot, the stored cell otherwise (Empty
placeholders included). -/
def GetCellOpt (g : Sheet) (p : Position) : Option Cell :=
  match slotAt g p with
  | some (some c) => some c
  | _ => none

/-- The exceptions thrown by the sheet API. -/
inductive SheetError where
  | invalidPosition
  | formulaError
  | circularDependency
deriving DecidableEq, Repr

/-- Sheet::GetCell (non-const): throws InvalidPositionException for an
invalid position, otherwise the slot content (possibly an Empty
placeholder). -/
def GetCell (g : Sheet) (p : Position) : Except SheetError (Option Cell) :=
  if p.IsValid then .ok (GetCellOpt g p) else .error .invalidPosition

/-- Sheet::GetCell (const, sheet.cpp lines 79–100) behind the validity check:
additionally hides a stored cell whose text is empty. -/
def GetCellConstOpt (g : Sheet) (p : Position) : Option Cell :=
  match slotAt g p with
  | none => none
  | some none => none
  | some (some c) => if c.getText = "" then none else some c

/-- Sheet::GetCell (const): throws InvalidPositionException for an invalid
position; returns `none` outside the extent, for an empty slot, and for a
stored cell whose text is empty. -/
def GetCellConst (g : Sheet) (p : Position) : Except SheetError (Option Cell) :=
  if p.IsValid then .ok (GetCellConstOpt g p) else .error .invalidPosition

/-- The number of slots of the grid, used as recursion fuel where the C++
code recurses on the (acyclic, visited-bounded) dependency structure. -/
def totalSlots (g : Sheet) : Nat :=
  g.foldl (fun n r => n + r.length) 0

/-- The inner loop of Cell::HasCircularDependency (cell.cpp lines 90–103)
over the referenced positions of one cell: reaching `target` reports a
cycle; an unvisited referenced cell is marked visited and searched
recursively through `rec`. -/
def hcdLoop (target : Position) (rec : List Position → Position → Bool × List Position) :
    List Position → List Position → Bool × List Position
  | [], vis => (false, vis)
  | d :: rest, vis =>
    if d = target then (true, vis)
    else if d ∈ vis then hcdLoop target rec rest vis
    else
      match rec (d :: vis) d with
      | (true, v) => (true, v)
      | (false, v) => hcdLoop target rec rest v

/-- Cell::HasCircularDependency: depth-first search through the referenced
cells of the cell at a position; a missing cell has no outgoing references.
The fuel is always sufficient at one more than the number of cells, since
each descent first marks an unvisited cell visited. -/
def hasCircFrom (g : Sheet) (target : Position) : Nat → List Position → Position → Bool × List Position
  | 0, vis, _ => (false, vis)
  | f + 1, vis, c => hcdLoop target (hasCircFrom g target f) (refsAt g c) vis

/-- The loop of Cell::CheckCircularDependencies (cell.cpp lines 112–127) over
the candidate's referenced positions, threading the visited set: a reference
equal to the target position is an immediate cycle; otherwise the referenced
cell is marked visited and searched. -/
def ccLoop (g : Sheet) (p : Position) : List Position → List Position → Bool
  | [], _ => false
  | q :: rest, vis =>
    if q = p then true
    else
      let vis' := if q ∈ vis then vis else q :: vis
      match hasCircFrom g p (totalSlots g + 1) vis' q with
      | (true, _) => true
      | (false, v) => ccLoop g p rest v

/-- Cell::CheckCircularDependencies: would installing an impl with these
referenced positions at `p` create a cycle? -/
def CheckCircularDependencies (g : Sheet) (p : Position) (refs : List Position) : Bool :=
  ccLoop g p refs []

/-- Cell::ResetCache (cell.cpp lines 177–184): if the impl has a cache (the
cache-free variants answer true) or the reset is forced, drop the cache and
recurse into every dependent (`calculated_cells_`). The fuel is always
sufficient at one more than the number of cells because the dependency graph
of reachable sheets is acyclic. -/
def ResetCache : Nat → Sheet → Position → Bool → Sheet
  | 0, g, _, _ => g
  | f + 1, g, p, force =>
    match cellAt g p with
    | none => g
    | some c =>
      if c.impl.hasCache || force then
        let g' := updateCell g p (fun cd => { cd with impl := cd.impl.resetCache })
        c.calculatedCells.foldl (fun acc d => ResetCache f acc d false) g'
      else g

/-- Insert into a list modelling `std::unordered_set` membership. -/
def insertUnique (p : Position) (l : List Position) : List Position :=
  if p ∈ l then l else p :: l

/-- SetCell(q, "") called on a position whose slot is absent (the only way
the code calls it while materializing referenced cells): grow the grid,
construct a fresh Empty cell in the slot; the subsequent Cell::Set of the
empty string on the fresh cell changes nothing further (empty impl, no
edges, empty dependent set). -/
def ensureCell (g : Sheet) (p : Position) : Sheet :=
  let g' := resizeFor g p
  if cellAt g' p = none then setSlot g' p (some freshCell) else g'

/-- The impl swap `impl_ = std::move(impl)` of Cell::Set. -/
def implSwap (g : Sheet) (p : Position) (impl : CellImpl) : Sheet :=
  updateCell g p (fun cd => { cd with impl := impl })

/-- The unhooking loop of Cell::Set (cell.cpp lines 58–63): remove this cell
from the `calculated_cells_` of every cell it was using, then clear its
`using_cells_`. -/
def unhookStage (g : Sheet) (p : Position) : Sheet :=
  let g2 := (usingAt g p).foldl
    (fun acc u => updateCell acc u
      (fun cd => { cd with calculatedCells := cd.calculatedCells.filter (fun x => decide (x ≠ p)) })) g
  updateCell g2 p (fun cd => { cd with usingCells := [] })

/-- One iteration of the re-hooking loop of Cell::Set (cell.cpp lines
66–76): materialize the referenced cell if missing, insert it into this
cell's `using_cells_` and this cell into its `calculated_cells_`. -/
def rehookStep (p : Position) (acc : Sheet) (q : Position) : Sheet :=
  let acc1 := if GetCellOpt acc q = none then ensureCell acc q else acc
  let acc2 := updateCell acc1 p (fun cd => { cd with usingCells := insertUnique q cd.usingCells })
  updateCell acc2 q (fun cd => { cd with calculatedCells := insertUnique p cd.calculatedCells })

/-- The re-hooking loop of Cell::Set over the new impl's referenced cells. -/
def rehookStage (g : Sheet) (p : Position) (refs : List Position) : Sheet :=
  refs.foldl (rehookStep p) g

/-- The edge rewrite of Cell::Set after the cycle check (cell.cpp lines
56–76) followed by the cache invalidation, on an impl already swapped in:
unhook this cell from the `calculated_cells_` of everything it used, clear
its `using_cells_`, re-hook it to the new impl's referenced cells
(materializing any missing one), then ResetCache(true). -/
def cellSetCommit (g : Sheet) (p : Position) (impl : CellImpl) : Option SheetError × Sheet :=
  if CheckCircularDependencies g p impl.referencedCells then (some .circularDependency, g)
  else
    let g4 := rehookStage (unhookStage (implSwap g p impl) p) p impl.referencedCells
    (none, ResetCache (totalSlots g4 + 1) g4 p true)

/-- The materialization loop in the formula branch of Cell::Set (cell.cpp
lines 38–43): create an Empty cell at every valid referenced position whose
slot is absent. -/
def matStage (g : Sheet) (refs : List Position) : Sheet :=
  refs.foldl (fun acc q => if q.IsValid ∧ GetCellOpt acc q = none then ensureCell acc q else acc) g

/-- Cell::Set (cell.cpp lines 30–80): classify the text — empty → EmptyImpl;
`=`-prefixed of length ≥ 2 → FormulaImpl (a parse failure throws
FormulaException before anything is touched), materializing the candidate's
valid referenced positions that have no cell; otherwise TextImpl — then run
the cycle check and, if it passes, commit. -/
def CellSet (g : Sheet) (p : Position) (text : String) : Option SheetError × Sheet :=
  if text = "" then cellSetCommit g p .empty
  else if 2 ≤ text.length ∧ text.front = FORMULA_SIGN then
    match parseFormula (text.drop 1) with
    | none => (some .formulaError, g)
    | some e =>
      cellSetCommit (matStage g (GetReferencedCells e)) p (.formula e none)
  else cellSetCommit g p (.text text)

/-- Sheet::SetCell (sheet.cpp lines 27–44): reject an invalid position, grow
the grid to cover it, construct the cell if the slot is empty, then
Cell::Set. The first component is the exception thrown, if any; the second
is the sheet state when the call returns or the exception escapes. -/
def SetCell (g : Sheet) (p : Position) (text : String) : Option SheetError × Sheet :=
  if p.IsValid then
    let g1 := resizeFor g p
    let g2 := if cellAt g1 p = none then setSlot g1 p (some freshCell) else g1
    CellSet g2 p text
  else (some .invalidPosition, g)

/-- Sheet::ClearCell (sheet.cpp lines 148–166): reject an invalid position;
for an occupied slot run Cell::Clear (= Cell::Set of the empty string; the
uninitialised `pos_` member it passes along is never consulted on this path
because an EmptyImpl has no referenced cells) and release the slot if the
cell is no longer referenced. -/
def ClearCell (g : Sheet) (p : Position) : Option SheetError × Sheet :=
  if p.IsValid then
    match slotAt g p with
    | some (some _) =>
      let g1 := (CellSet g p "").2
      let g2 := if calcAt g1 p = [] then setSlot g1 p none else g1
      (none, g2)
    | _ => (none, g)
  else (some .invalidPosition, g)

/-- The value dispatch of the cell-lookup lambda in Formula::Evaluate
(formula.cpp lines 51–71), given the value a referenced cell produced:
a number is returned; a string is 0 when empty, its parsed value when `pn`
(the istringstream full-parse of a double) accepts it, and a Value error
otherwise; a FormulaError value is re-raised unchanged. -/
def lookupValue (pn : String → Option Rat) : CellValue → Except FormulaError Rat
  | .num d => .ok d
  | .str s =>
    if s = "" then .ok 0
    else
      match pn s with
      | some d => .ok d
      | none => .error .Value
  | .ferr e => .error e

/-- The position part of the cell-lookup lambda of Formula::Evaluate
(formula.cpp lines 41–72): an invalid position raises Ref; an absent cell
(through the const GetCell) yields 0; otherwise the cell's value is read
through `getv` (which may fill caches) and dispatched by `lookupValue`. -/
def lookupF (pn : String → Option Rat) (getv : Sheet → Position → CellValue × Sheet)
    (g : Sheet) (p : Position) : Except FormulaError Rat × Sheet :=
  if p.IsValid then
    match GetCellConstOpt g p with
    | none => (.ok 0, g)
    | some _ =>
      let vg := getv g p
      (lookupValue pn vg.1, vg.2)
  else (.error .Ref, g)

/-- FormulaAST::Execute, modelled from the spec (FormulaAST.cpp is not in the
repository sources): strict left-to-right evaluation, `+ - * /` and unary
minus, division by zero raising Div0 (the non-finite check on exact
rationals), errors from the lookup propagating unchanged. The lookup may
fill caches, so the sheet threads through. -/
def evalE (look : Sheet → Position → Except FormulaError Rat × Sheet) :
    Sheet → Expr → Except FormulaError Rat × Sheet
  | g, .num d => (.ok d, g)
  | g, .ref p => look g p
  | g, .add l r =>
    match evalE look g l with
    | (.error e, g') => (.error e, g')
    | (.ok a, g') =>
      match evalE look g' r with
      | (.error e, g'') => (.error e, g'')
      | (.ok b, g'') => (.ok (a + b), g'')
  | g, .sub l r =>
    match evalE look g l with
    | (.error e, g') => (.error e, g')
    | (.ok a, g') =>
      match evalE look g' r with
      | (.error e, g'') => (.error e, g'')
      | (.ok b, g'') => (.ok (a - b), g'')
  | g, .mul l r =>
    match evalE look g l with
    | (.error e, g') => (.error e, g')
    | (.ok a, g') =>
      match evalE look g' r with
      | (.error e, g'') => (.error e, g'')
      | (.ok b, g'') => (.ok (a * b), g'')
  | g, .div l r =>
    match evalE look g l with
    | (.error e, g') => (.error e, g')
    | (.ok a, g') =>
      match evalE look g' r with
      | (.error e, g'') => (.error e, g'')
      | (.ok b, g'') => if b = 0 then (.error .Div0, g'') else (.ok (a / b), g'')
  | g, .neg e =>
    match evalE look g e with
    | (.error er, g') => (.error er, g')
    | (.ok a, g') => (.ok (-a), g')

/-- Formula::Evaluate (formula.cpp lines 39–78): run the AST with the cell
lookup and catch any FormulaError, returning it as the result value. -/
def FormulaEvaluate (look : Sheet → Position → Except FormulaError Rat × Sheet)
    (g : Sheet) (e : Expr) : FValue × Sheet :=
  match evalE look g e with
  | (.ok d, g') => (.num d, g')
  | (.error er, g') => (.ferr er, g')

/-- Store a formula cell's cache (the mutable `cache_` of FormulaImpl). -/
def setCacheAt (g : Sheet) (p : Position) (v : Option FValue) : Sheet :=
  updateCell g p (fun cd =>
    { cd with impl := match cd.impl with
        | .formula e _ => .formula e v
        | other => other })

/-- Cell::GetValue through the impl variants (cell.cpp lines 141–143 and
216–279): EmptyImpl yields the empty string; TextImpl yields the text with a
leading escape character stripped (its throw on empty text is modelled in
`textImplGetValue`, a branch unreachable from the public interface, and
yields the empty string here); FormulaImpl evaluates through the sheet and
memoizes unless a cached value exists. The first argument of the fuel
recursion bounds the depth of nested cell reads. -/
def GetValueF (pn : String → Option Rat) : Nat → Sheet → Position → CellValue × Sheet
  | 0, g, _ => (.str "", g)
  | f + 1, g, p =>
    match cellAt g p with
    | none => (.str "", g)
    | some c =>
      match c.impl with
      | .empty => (.str "", g)
      | .text s =>
        if s = "" then (.str "", g)
        else if s.front = ESCAPE_SIGN then (.str (s.drop 1), g)
        else (.str s, g)
      | .formula e cache =>
        match cache with
        | some v => (v.toCellValue, g)
        | none =>
          let vg := FormulaEvaluate (lookupF pn (GetValueF pn f)) g e
          (vg.1.toCellValue, setCacheAt vg.2 p (some vg.1))

/-- Cell::TextImpl::GetValue (cell.cpp lines 241–249): `none` models the
FormulaException thrown when the stored text is empty; otherwise the text,
with a leading ESCAPE_SIGN stripped. -/
def textImplGetValue (s : String) : Option CellValue :=
  if s = "" then none
  else if s.front = ESCAPE_SIGN then some (.str (s.drop 1))
  else some (.str s)

/-- The inner right-to-left scan of Sheet::GetPrintableSize (sheet.cpp lines
182–194): the largest column index of this row holding a cell with non-empty
text, if any. -/
def rowLastNE : List (Option Cell) → Option Nat
  | [] => none
  | oc :: rest =>
    match rowLastNE rest with
    | some i => some (i + 1)
    | none =>
      match oc with
      | some c => if c.getText = "" then none else some 0
      | none => none

/-- The row loop of Sheet::GetPrintableSize, accumulating `size` over the
rows from the given index on. -/
def printableAux : List (List (Option Cell)) → Nat → Nat × Nat → Nat × Nat
  | [], _, acc => acc
  | r :: rs, i, acc =>
    match rowLastNE r with
    | some c => printableAux rs (i + 1) (max acc.1 (i + 1), max acc.2 (c + 1))
    | none => printableAux rs (i + 1) acc

/-- Sheet::GetPrintableSize (sheet.cpp lines 176–198). -/
def GetPrintableSize (g : Sheet) : Nat × Nat :=
  printableAux g 0 (0, 0)

/-- One public operation of the sheet, taken with the state it leaves behind
whether or not it throws: SetCell, ClearCell, or a value read (which fills
caches; the parse function and the fuel are arbitrary). -/
inductive SheetStep : Sheet → Sheet → Prop
  | set (g : Sheet) (p : Position) (t : String) : SheetStep g (SetCell g p t).2
  | clear (g : Sheet) (p : Position) : SheetStep g (ClearCell g p).2
  | read (g : Sheet) (pn : String → Option Rat) (f : Nat) (p : Position) :
      SheetStep g (GetValueF pn f g p).2

/-- The sheet states reachable from the freshly created sheet by public
operations. -/
inductive ReachableSheet : Sheet → Prop
  | empty : ReachableSheet []
  | step {g g' : Sheet} : ReachableSheet g → SheetStep g g' → ReachableSheet g'

/-- Invariant 1 of the spec: for every pair of cells, B is among A's
`using_cells_` exactly when A is among B's `calculated_cells_`. -/
def EdgeSymm (g : Sheet) : Prop :=
  ∀ a b ca cb, cellAt g a = some ca → cellAt g b = some cb →
    (b ∈ ca.usingCells ↔ a ∈ cb.calculatedCells)

/-- Every dependency edge points at an existing cell. -/
def NoGhost (g : Sheet) : Prop :=
  ∀ a ca, cellAt g a = some ca →
    (∀ b, b ∈ ca.usingCells → (cellAt g b).isSome) ∧
    (∀ b, b ∈ ca.calculatedCells → (cellAt g b).isSome)

/-- No cell is its own dependency or dependent. -/
def NoSelf (g : Sheet) : Prop :=
  ∀ a ca, cellAt g a = some ca → a ∉ ca.usingCells ∧ a ∉ ca.calculatedCells

/-- Every TextImpl stores non-empty text (Cell::Set only constructs TextImpl
for non-empty text not classified as a formula). -/
def TextNE (g : Sheet) : Prop :=
  ∀ a ca s, cellAt g a = some ca → ca.impl = .text s → s ≠ ""

/-- The graph invariants maintained by every public operation. -/
def GInv (g : Sheet) : Prop :=
  EdgeSymm g ∧ NoGhost g ∧ NoSelf g ∧ TextNE g


/-- A printable cell at grid coordinates: the slot holds a cell with
non-empty text. -/
def HasPrintableCellAt (g : Sheet) (k j : Nat) : Prop :=
  ∃ r c, g.get? k = some r ∧ r.get? j = some (some c) ∧ c.getText ≠ ""

/-- The cached value of the cell at a position (none when absent or
uncached). -/
def cacheAt (g : Sheet) (p : Position) : Option FValue :=
  match cellAt g p with
  | some c => c.impl.cacheOf
  | none => none

/-- One step along the `used_by` edges: b is among the cells whose formulas
reference a. -/
def UsedByStep (g : Sheet) (a b : Position) : Prop :=
  b ∈ calcAt g a

instance (g : Sheet) (a b : Position) : Decidable (UsedByStep g a b) := by
  unfold UsedByStep
  infer_instance

/-- Reachability along `used_by` edges (the cells transitively depending on
the start). -/
def UsedByReach (g : Sheet) : Position → Position → Prop :=
  Relation.ReflTransGen (UsedByStep g)

/-- A concrete run: B1 := "=X1" (materializing X1 empty); A1 := "foo";
C1 := "=A1+B1"; then C1 is read, caching a Value error at C1 while the
evaluation of A1 threw before B1 was ever read, leaving B1 uncached. The
string-to-double parse is the nowhere-succeeding function. -/
def staleSheet : Sheet :=
  (GetValueF (fun _ => none) 10
    (SetCell (SetCell (SetCell [] ⟨0, 1⟩ "=X1").2 ⟨0, 0⟩ "foo").2 ⟨0, 2⟩ "=A1+B1").2
    ⟨0, 2⟩).2

/-- The run above followed by SetCell(X1, "5"): the invalidation starting at
X1 stops at the uncached B1 and never reaches the cached C1. -/
def staleSheetAfter : Sheet :=
  (SetCell staleSheet ⟨0, 23⟩ "5").2

theorem posLt_trans {p q r : Position} (h1 : posLt p q) (h2 : posLt q r) : posLt p r := by
  unfold posLt at *
  omega

theorem posLt_total_eq {p q : Position} (h1 : ¬ posLt p q) (h2 : ¬ posLt q p) : p = q := by
  obtain ⟨pr, pc⟩ := p
  obtain ⟨qr, qc⟩ := q
  simp only [posLt, not_or, not_and, not_lt] at h1 h2
  simp only [Position.mk.injEq]
  omega

theorem mem_insertPos (a p : Position) (l : List Position) :
    a ∈ insertPos p l ↔ a = p ∨ a ∈ l := by
  induction l with
  | nil => simp [insertPos]
  | cons q rest ih =>
    by_cases h1 : posLt p q
    · simp [insertPos, h1]
    · by_cases h2 : posLt q p
      · simp only [insertPos, h1, h2, if_false, if_true, List.mem_cons, ih]
        tauto
      · have heq := posLt_total_eq h1 h2
        subst heq
        simp [insertPos, h1, h2]

theorem pairwise_insertPos (p : Position) (l : List Position) (h : l.Pairwise posLt) :
    (insertPos p l).Pairwise posLt := by
  induction l with
  | nil => simp [insertPos]
  | cons q rest ih =>
    rw [List.pairwise_cons] at h
    obtain ⟨hq, hrest⟩ := h
    by_cases h1 : posLt p q
    · simp only [insertPos, h1, if_true, List.pairwise_cons, List.mem_cons]
      refine ⟨?_, ?_, hrest⟩
      · rintro x (rfl | hx)
        · exact h1
        · exact posLt_trans h1 (hq x hx)
      · exact hq
    · by_cases h2 : posLt q p
      · simp only [insertPos, h1, h2, if_false, if_true, List.pairwise_cons]
        refine ⟨?_, ih hrest⟩
        intro x hx
        rcases (mem_insertPos x p rest).1 hx with rfl | hx'
        · exact h2
        · exact hq x hx'
      · have heq := posLt_total_eq h1 h2
        subst heq
        simp only [insertPos, h1, h2, if_false]
        exact List.pairwise_cons.2 ⟨hq, hrest⟩

theorem refCells_fold_mem (l : List Position) (acc : List Position) (p : Position) :
    p ∈ l.foldl (fun acc q => if q.IsValid then insertPos q acc else acc) acc ↔
      (p ∈ acc ∨ (p ∈ l ∧ p.IsValid)) := by
  induction l generalizing acc with
  | nil => simp
  | cons q rest ih =>
    by_cases hq : q.IsValid
    · simp only [List.foldl_cons, hq, if_true]
      rw [ih (insertPos q acc), mem_insertPos]
      simp only [List.mem_cons]
      constructor
      · rintro ((h | hp) | ⟨hp, hv⟩)
        · exact Or.inr ⟨Or.inl h, h.symm ▸ hq⟩
        · exact Or.inl hp
        · exact Or.inr ⟨Or.inr hp, hv⟩
      · rintro (hp | ⟨(h | hp), hv⟩)
        · exact Or.inl (Or.inr hp)
        · exact Or.inl (Or.inl h)
        · exact Or.inr ⟨hp, hv⟩
    · simp only [List.foldl_cons, hq, if_false]
      rw [ih acc]
      simp only [List.mem_cons]
      constructor
      · rintro (hp | ⟨hp, hv⟩)
        · exact Or.inl hp
        · exact Or.inr ⟨Or.inr hp, hv⟩
      · rintro (hp | ⟨(h | hp), hv⟩)
        · exact Or.inl hp
        · exact absurd (h ▸ hv) hq
        · exact Or.inr ⟨hp, hv⟩

theorem refCells_fold_pairwise (l : List Position) (acc : List Position)
    (hacc : acc.Pairwise posLt) :
    (l.foldl (fun acc q => if q.IsValid then insertPos q acc else acc) acc).Pairwise posLt := by
  induction l generalizing acc with
  | nil => simpa using hacc
  | cons q rest ih =>
    by_cases hq : q.IsValid
    · simp only [List.foldl_cons, hq, if_true]
      exact ih _ (pairwise_insertPos q acc hacc)
    · simp only [List.foldl_cons, hq, if_false]
      exact ih _ hacc

/-- C6: for every parsed formula, GetReferencedCells returns exactly the
valid positions occurring in the expression, duplicates removed and sorted
strictly ascending in the lexicographic (row, col) order; invalid positions
are dropped from the list. -/
theorem c6_referenced_cells_sorted_dedup_valid :
    ∀ e : Expr, (GetReferencedCells e).Pairwise posLt ∧
      (∀ p, p ∈ GetReferencedCells e ↔ (p ∈ e.positions ∧ p.IsValid)) := by
  intro e
  refine ⟨refCells_fold_pairwise _ _ List.Pairwise.nil, fun p => ?_⟩
  rw [GetReferencedCells, refCells_fold_mem]
  simp

/-- C5 (code divergence): the stream printer of FormulaError in formula.cpp
prints the Div0 token "#DIV/0!" for every error kind, so Ref does not render
to "#REF!" and Value does not render to "#VALUE!" as the spec claims. -/
theorem c5_printFormulaError_always_div0 :
    printFormulaError FormulaError.Ref = "#DIV/0!" ∧
    printFormulaError FormulaError.Value = "#DIV/0!" ∧
    printFormulaError FormulaError.Div0 = "#DIV/0!" ∧
    printFormulaError FormulaError.Ref ≠ "#REF!" ∧
    printFormulaError FormulaError.Value ≠ "#VALUE!" := by
  refine ⟨rfl, rfl, rfl, ?_, ?_⟩ <;> decide

/-- C4: the cell lookup of Formula::Evaluate raises Ref on an invalid
position, yields 0 for an absent cell, returns a numeric cell value
unchanged, yields 0 for an empty-string value, yields the parsed number for
a string `pn` accepts (the istringstream full-parse of a double), raises
Value on any other string, re-raises a FormulaError value unchanged; and
Evaluate catches every FormulaError, returning it as the result value. -/
theorem c4_evaluate_lookup_semantics (pn : String → Option Rat) :
    (∀ d, lookupValue pn (.num d) = .ok d) ∧
    (lookupValue pn (.str "") = .ok 0) ∧
    (∀ s d, s ≠ "" → pn s = some d → lookupValue pn (.str s) = .ok d) ∧
    (∀ s, s ≠ "" → pn s = none → lookupValue pn (.str s) = .error .Value) ∧
    (∀ e, lookupValue pn (.ferr e) = .error e) ∧
    (∀ getv g p, ¬ p.IsValid → lookupF pn getv g p = (.error .Ref, g)) ∧
    (∀ getv g p, p.IsValid → GetCellConstOpt g p = none → lookupF pn getv g p = (.ok 0, g)) ∧
    (∀ look g e er g', evalE look g e = (.error er, g') →
      FormulaEvaluate look g e = (.ferr er, g')) := by
  refine ⟨fun d => rfl, by simp [lookupValue], ?_, ?_, fun e => rfl, ?_, ?_, ?_⟩
  · intro s d hs hp
    simp [lookupValue, hs, hp]
  · intro s hs hp
    simp [lookupValue, hs, hp]
  · intro getv g p hp
    simp [lookupF, hp]
  · intro getv g p hp hnone
    simp [lookupF, hp, hnone]
  · intro look g e er g' h
    simp [FormulaEvaluate, h]

/-- C7: both GetCell overloads throw InvalidPositionException on an invalid
position; for a valid one, outside the materialized extent and on an empty
slot both return null; on an occupied slot the non-const overload returns
the stored cell (Empty placeholders included) while the const overload
additionally returns null when the stored cell's text is empty. -/
theorem c7_getcell_const_vs_nonconst :
    ∀ g p,
      (¬ p.IsValid → GetCell g p = .error .invalidPosition ∧
        GetCellConst g p = .error .invalidPosition) ∧
      (p.IsValid → slotAt g p = none → GetCell g p = .ok none ∧ GetCellConst g p = .ok none) ∧
      (p.IsValid → slotAt g p = some none → GetCell g p = .ok none ∧ GetCellConst g p = .ok none) ∧
      (∀ c, p.IsValid → slotAt g p = some (some c) → c.getText = "" →
        GetCell g p = .ok (some c) ∧ GetCellConst g p = .ok none) ∧
      (∀ c, p.IsValid → slotAt g p = some (some c) → c.getText ≠ "" →
        GetCell g p = .ok (some c) ∧ GetCellConst g p = .ok (some c)) := by
  intro g p
  refine ⟨?_, ?_, ?_, ?_, ?_⟩
  · intro hp
    simp [GetCell, GetCellConst, hp]
  · intro hp hs
    simp [GetCell, GetCellConst, GetCellOpt, GetCellConstOpt, hp, hs]
  · intro hp hs
    simp [GetCell, GetCellConst, GetCellOpt, GetCellConstOpt, hp, hs]
  · intro c hp hs ht
    simp [GetCell, GetCellConst, GetCellOpt, GetCellConstOpt, hp, hs, ht]
  · intro c hp hs ht
    simp [GetCell, GetCellConst, GetCellOpt, GetCellConstOpt, hp, hs, ht]

theorem rowLastNE_cons (oc : Option Cell) (rest : List (Option Cell)) :
    rowLastNE (oc :: rest) =
      match rowLastNE rest with
      | some i => some (i + 1)
      | none =>
        match oc with
        | some c => if c.getText = "" then none else some 0
        | none => none := rfl

theorem rowLastNE_none (r : List (Option Cell)) (h : rowLastNE r = none) :
    ∀ j, ¬ ∃ c, r.get? j = some (some c) ∧ c.getText ≠ "" := by
  induction r with
  | nil =>
    intro j
    rintro ⟨c, hc, -⟩
    simp at hc
  | cons oc rest ih =>
    intro j
    rcases hrest : rowLastNE rest with _ | i
    · rw [rowLastNE_cons, hrest] at h
      match j with
      | 0 =>
        rintro ⟨c, hc, hne⟩
        simp only [List.get?, Option.some.injEq] at hc
        subst hc
        simp only [hne, if_false] at h
        exact Option.noConfusion h
      | j + 1 =>
        rintro ⟨c, hc, hne⟩
        refine ih hrest j ⟨c, ?_, hne⟩
        simpa using hc
    · rw [rowLastNE_cons, hrest] at h
      exact Option.noConfusion h

theorem rowLastNE_some (r : List (Option Cell)) (i : Nat) (h : rowLastNE r = some i) :
    (∃ c, r.get? i = some (some c) ∧ c.getText ≠ "") ∧
    (∀ j, (∃ c, r.get? j = some (some c) ∧ c.getText ≠ "") → j ≤ i) := by
  induction r generalizing i with
  | nil => exact Option.noConfusion h
  | cons oc rest ih =>
    rcases hrest : rowLastNE rest with _ | k
    · rw [rowLastNE_cons, hrest] at h
      match hoc : oc with
      | some c =>
        dsimp only at h
        by_cases hemp : c.getText = ""
        · simp only [hemp, if_true] at h
          exact Option.noConfusion h
        · simp only [hemp, if_false, Option.some.injEq] at h
          subst h
          refine ⟨⟨c, rfl, hemp⟩, ?_⟩
          intro j hj
          match j with
          | 0 => exact Nat.le_refl 0
          | j + 1 =>
            obtain ⟨c', hc', hne'⟩ := hj
            exact absurd ⟨c', by simpa using hc', hne'⟩ (rowLastNE_none rest hrest j)
      | none =>
        dsimp only at h
        exact Option.noConfusion h
    · rw [rowLastNE_cons, hrest] at h
      simp only [Option.some.injEq] at h
      subst h
      obtain ⟨⟨c, hc, hne⟩, hbound⟩ := ih k hrest
      refine ⟨⟨c, by simpa using hc, hne⟩, ?_⟩
      intro j hj
      match j with
      | 0 => exact Nat.zero_le _
      | j + 1 =>
        obtain ⟨c', hc', hne'⟩ := hj
        have := hbound j ⟨c', by simpa using hc', hne'⟩
        omega

theorem printableAux_spec (rs : List (List (Option Cell))) (i a b : Nat) :
    a ≤ (printableAux rs i (a, b)).1 ∧ b ≤ (printableAux rs i (a, b)).2 ∧
    (∀ k j, (∃ r c, rs.get? k = some r ∧ r.get? j = some (some c) ∧ c.getText ≠ "") →
      i + k < (printableAux rs i (a, b)).1 ∧ j < (printableAux rs i (a, b)).2) ∧
    ((printableAux rs i (a, b)).1 = a ∨
      ∃ k j, (∃ r c, rs.get? k = some r ∧ r.get? j = some (some c) ∧ c.getText ≠ "") ∧
        i + k + 1 = (printableAux rs i (a, b)).1) ∧
    ((printableAux rs i (a, b)).2 = b ∨
      ∃ k j, (∃ r c, rs.get? k = some r ∧ r.get? j = some (some c) ∧ c.getText ≠ "") ∧
        j + 1 = (printableAux rs i (a, b)).2) := by
  induction rs generalizing i a b with
  | nil => simp [printableAux]
  | cons r rest ih =>
    rcases hrow : rowLastNE r with _ | c
    · have heq : printableAux (r :: rest) i (a, b) = printableAux rest (i + 1) (a, b) := by
        simp [printableAux, hrow]
      rw [heq]
      obtain ⟨h1, h2, h3, h4, h5⟩ := ih (i + 1) a b
      refine ⟨h1, h2, ?_, ?_, ?_⟩
      · intro k j hk
        match k with
        | 0 =>
          obtain ⟨r', c', hr', hc', hne'⟩ := hk
          simp only [List.get?, Option.some.injEq] at hr'
          subst hr'
          exact absurd ⟨c', hc', hne'⟩ (rowLastNE_none r hrow j)
        | k + 1 =>
          obtain ⟨r', c', hr', hc', hne'⟩ := hk
          have hres := h3 k j ⟨r', c', by simpa using hr', hc', hne'⟩
          omega
      · rcases h4 with h | ⟨k, j, ⟨r', c', hr', hc', hne'⟩, hEq⟩
        · exact Or.inl h
        · exact Or.inr ⟨k + 1, j, ⟨r', c', by simpa using hr', hc', hne'⟩, by omega⟩
      · rcases h5 with h | ⟨k, j, ⟨r', c', hr', hc', hne'⟩, hEq⟩
        · exact Or.inl h
        · exact Or.inr ⟨k + 1, j, ⟨r', c', by simpa using hr', hc', hne'⟩, by omega⟩
    · have heq : printableAux (r :: rest) i (a, b) =
          printableAux rest (i + 1) (max a (i + 1), max b (c + 1)) := by
        simp [printableAux, hrow]
      rw [heq]
      obtain ⟨h1, h2, h3, h4, h5⟩ := ih (i + 1) (max a (i + 1)) (max b (c + 1))
      obtain ⟨⟨c0, hc0, hne0⟩, hbound⟩ := rowLastNE_some r c hrow
      refine ⟨?_, ?_, ?_, ?_, ?_⟩
      · exact Nat.le_trans (Nat.le_max_left _ _) h1
      · exact Nat.le_trans (Nat.le_max_left _ _) h2
      · intro k j hk
        match k with
        | 0 =>
          obtain ⟨r', c', hr', hc', hne'⟩ := hk
          simp only [List.get?, Option.some.injEq] at hr'
          subst hr'
          have hj := hbound j ⟨c', hc', hne'⟩
          have hm1 : i + 1 ≤ max a (i + 1) := Nat.le_max_right _ _
          have hm2 : c + 1 ≤ max b (c + 1) := Nat.le_max_right _ _
          omega
        | k + 1 =>
          obtain ⟨r', c', hr', hc', hne'⟩ := hk
          have hres := h3 k j ⟨r', c', by simpa using hr', hc', hne'⟩
          omega
      · rcases h4 with h | ⟨k, j, ⟨r', c', hr', hc', hne'⟩, hEq⟩
        · rcases Nat.le_total (i + 1) a with hle | hle
          · refine Or.inl ?_
            rw [h, Nat.max_eq_left hle]
          · refine Or.inr ⟨0, c, ⟨r, c0, rfl, hc0, hne0⟩, ?_⟩
            rw [h, Nat.max_eq_right hle]
        · exact Or.inr ⟨k + 1, j, ⟨r', c', by simpa using hr', hc', hne'⟩, by omega⟩
      · rcases h5 with h | ⟨k, j, ⟨r', c', hr', hc', hne'⟩, hEq⟩
        · rcases Nat.le_total (c + 1) b with hle | hle
          · refine Or.inl ?_
            rw [h, Nat.max_eq_left hle]
          · refine Or.inr ⟨0, c, ⟨r, c0, rfl, hc0, hne0⟩, ?_⟩
            rw [h, Nat.max_eq_right hle]
        · exact Or.inr ⟨k + 1, j, ⟨r', c', by simpa using hr', hc', hne'⟩, by omega⟩

/-- C8: GetPrintableSize returns the smallest bounding rectangle anchored at
(0,0) covering every cell whose GetText is non-empty: every such cell lies
inside the rectangle, a non-zero row count is one plus the largest row index
of such a cell, a non-zero column count is one plus the largest column
index, and the size is (0,0) when no such cell exists. -/
theorem c8_printable_size_bounding :
    ∀ g : Sheet,
      (∀ k j, HasPrintableCellAt g k j →
        k < (GetPrintableSize g).1 ∧ j < (GetPrintableSize g).2) ∧
      ((GetPrintableSize g).1 ≠ 0 →
        ∃ j, HasPrintableCellAt g ((GetPrintableSize g).1 - 1) j) ∧
      ((GetPrintableSize g).2 ≠ 0 →
        ∃ k, HasPrintableCellAt g k ((GetPrintableSize g).2 - 1)) ∧
      ((¬ ∃ k j, HasPrintableCellAt g k j) → GetPrintableSize g = (0, 0)) := by
  intro g
  obtain ⟨h1, h2, h3, h4, h5⟩ := printableAux_spec g 0 0 0
  rw [GetPrintableSize]
  refine ⟨?_, ?_, ?_, ?_⟩
  · intro k j hk
    have hres := h3 k j hk
    omega
  · intro hne
    rcases h4 with h | ⟨k, j, hk, hEq⟩
    · exact absurd h hne
    · refine ⟨j, ?_⟩
      have hx : (printableAux g 0 (0, 0)).1 - 1 = k := by omega
      unfold HasPrintableCellAt
      rw [hx]
      exact hk
  · intro hne
    rcases h5 with h | ⟨k, j, hk, hEq⟩
    · exact absurd h hne
    · refine ⟨k, ?_⟩
      have hx : (printableAux g 0 (0, 0)).2 - 1 = j := by omega
      unfold HasPrintableCellAt
      rw [hx]
      exact hk
  · intro hnone
    have hR : (printableAux g 0 (0, 0)).1 = 0 := by
      rcases h4 with h | ⟨k, j, hk, hEq⟩
      · exact h
      · exact absurd ⟨k, j, hk⟩ hnone
    have hC : (printableAux g 0 (0, 0)).2 = 0 := by
      rcases h5 with h | ⟨k, j, hk, hEq⟩
      · exact h
      · exact absurd ⟨k, j, hk⟩ hnone
    have hpair : printableAux g 0 (0, 0) =
        ((printableAux g 0 (0, 0)).1, (printableAux g 0 (0, 0)).2) := rfl
    rw [hpair, hR, hC]

theorem padTo_length (n : Nat) (pad : α) (l : List α) :
    (padTo n pad l).length = max n l.length := by
  simp [padTo]
  omega

theorem get?_padTo_lt (n : Nat) (pad : α) (l : List α) (j : Nat) (h : j < l.length) :
    (padTo n pad l).get? j = l.get? j := by
  simp only [padTo, List.get?_eq_getElem?]
  rw [List.getElem?_append_left h]

theorem get?_padTo_pad (n : Nat) (pad : α) (l : List α) (j : Nat)
    (h1 : l.length ≤ j) (h2 : j < n) :
    (padTo n pad l).get? j = some pad := by
  simp only [padTo, List.get?_eq_getElem?]
  rw [List.getElem?_append_right h1]
  simp [List.getElem?_replicate]
  omega

theorem get?_padTo_ge (n : Nat) (pad : α) (l : List α) (j : Nat)
    (h1 : l.length ≤ j) (h2 : n ≤ j) :
    (padTo n pad l).get? j = none := by
  simp only [padTo, List.get?_eq_getElem?]
  rw [List.getElem?_append_right h1]
  simp [List.getElem?_replicate]
  omega

theorem pos_coord_inj {p q : Position} (hp : p.IsValid) (hq : q.IsValid)
    (hr : p.row.toNat = q.row.toNat) (hc : p.col.toNat = q.col.toNat) : p = q := by
  obtain ⟨hp1, -, hp3, -⟩ := hp
  obtain ⟨hq1, -, hq3, -⟩ := hq
  have h1 : p.row = q.row := by omega
  have h2 : p.col = q.col := by omega
  cases p
  cases q
  simp_all

theorem slotAt_resizeFor (g : Sheet) (p q : Position) :
    slotAt (resizeFor g p) q = slotAt g q ∨
    (slotAt g q = none ∧ slotAt (resizeFor g p) q = some none) := by
  have hrnN : p.row.toNat < max (p.row.toNat + 1) g.length := by omega
  by_cases hlt : p.row.toNat < g.length
  · obtain ⟨row0, hrow0⟩ : ∃ row0, g.get? p.row.toNat = some row0 := by
      cases hx : g.get? p.row.toNat with
      | none => exact absurd (List.get?_eq_none.1 hx) (by omega)
      | some r => exact ⟨r, rfl⟩
    have hget : (padTo (max (p.row.toNat + 1) g.length) [] g).get? p.row.toNat = some row0 := by
      rw [get?_padTo_lt _ _ _ _ hlt]
      exact hrow0
    have hres : resizeFor g p =
        (padTo (max (p.row.toNat + 1) g.length) [] g).set p.row.toNat
          (padTo (max (p.col.toNat + 1) row0.length) none row0) := by
      unfold resizeFor
      dsimp only
      rw [hget]
    rw [hres]
    unfold slotAt
    by_cases hqr : q.row.toNat = p.row.toNat
    · rw [hqr]
      rw [List.get?_set_eq]
      rw [hget, hrow0]
      simp only [Option.map_some]
      by_cases hqc : q.col.toNat < row0.length
      · rw [get?_padTo_lt _ _ _ _ hqc]
        exact Or.inl rfl
      · by_cases hqc2 : q.col.toNat < max (p.col.toNat + 1) row0.length
        · rw [get?_padTo_pad _ _ _ _ (by omega) hqc2]
          exact Or.inr ⟨List.get?_eq_none.2 (by omega), rfl⟩
        · rw [get?_padTo_ge _ _ _ _ (by omega) (by omega)]
          rw [List.get?_eq_none.2 (by omega)]
          exact Or.inl rfl
    · rw [List.get?_set_ne _ _ (fun h => hqr h.symm)]
      by_cases hq1 : q.row.toNat < g.length
      · rw [get?_padTo_lt _ _ _ _ hq1]
        exact Or.inl rfl
      · by_cases hq2 : q.row.toNat < max (p.row.toNat + 1) g.length
        · rw [get?_padTo_pad _ _ _ _ (by omega) hq2]
          rw [List.get?_eq_none.2 (by omega)]
          exact Or.inl rfl
        · rw [get?_padTo_ge _ _ _ _ (by omega) (by omega)]
          rw [List.get?_eq_none.2 (by omega)]
          exact Or.inl rfl
  · have hget : (padTo (max (p.row.toNat + 1) g.length) [] g).get? p.row.toNat = some [] := by
      rw [get?_padTo_pad _ _ _ _ (by omega) hrnN]
    have hres : resizeFor g p =
        (padTo (max (p.row.toNat + 1) g.length) [] g).set p.row.toNat
          (padTo (max (p.col.toNat + 1) 0) none []) := by
      unfold resizeFor
      dsimp only
      rw [hget]
      rfl
    rw [hres]
    unfold slotAt
    by_cases hqr : q.row.toNat = p.row.toNat
    · rw [hqr]
      rw [List.get?_set_eq]
      rw [hget]
      simp only [Option.map_some]
      have hnone : List.get? g p.row.toNat = none := List.get?_eq_none.2 (by omega)
      rw [hnone]
      by_cases hqc2 : q.col.toNat < max (p.col.toNat + 1) 0
      · rw [get?_padTo_pad _ _ _ _ (by simp) hqc2]
        exact Or.inr ⟨rfl, rfl⟩
      · rw [get?_padTo_ge _ _ _ _ (by simp) (by omega)]
        exact Or.inl rfl
    · rw [List.get?_set_ne _ _ (fun h => hqr h.symm)]
      by_cases hq1 : q.row.toNat < g.length
      · rw [get?_padTo_lt _ _ _ _ hq1]
        exact Or.inl rfl
      · by_cases hq2 : q.row.toNat < max (p.row.toNat + 1) g.length
        · rw [get?_padTo_pad _ _ _ _ (by omega) hq2]
          rw [List.get?_eq_none.2 (by omega)]
          exact Or.inl rfl
        · rw [get?_padTo_ge _ _ _ _ (by omega) (by omega)]
          rw [List.get?_eq_none.2 (by omega)]
          exact Or.inl rfl

theorem cellAt_resizeFor (g : Sheet) (p q : Position) :
    cellAt (resizeFor g p) q = cellAt g q := by
  by_cases hq : q.IsValid
  · unfold cellAt
    simp only [hq, if_true]
    rcases slotAt_resizeFor g p q with h | ⟨h1, h2⟩
    · rw [h]
    · rw [h1, h2]
  · simp [cellAt, hq]

theorem cellAt_eq_GetCellOpt (g : Sheet) (q : Position) (hq : q.IsValid) :
    cellAt g q = GetCellOpt g q := by
  unfold cellAt GetCellOpt
  simp only [hq, if_true]

theorem cellAt_invalid (g : Sheet) (q : Position) (hq : ¬ q.IsValid) : cellAt g q = none := by
  simp [cellAt, hq]

theorem cellAt_row_none (g : Sheet) (q : Position) (hrow : g.get? q.row.toNat = none) :
    cellAt g q = none := by
  unfold cellAt slotAt
  rw [hrow]
  simp

theorem cellAt_slot_none (g : Sheet) (q : Position) (row : List (Option Cell))
    (hrow : g.get? q.row.toNat = some row) (hc : row.get? q.col.toNat = none) :
    cellAt g q = none := by
  unfold cellAt slotAt
  rw [hrow]
  dsimp only
  rw [hc]
  simp

theorem cellAt_slot_empty (g : Sheet) (q : Position) (row : List (Option Cell))
    (hrow : g.get? q.row.toNat = some row) (hc : row.get? q.col.toNat = some none) :
    cellAt g q = none := by
  unfold cellAt slotAt
  rw [hrow]
  dsimp only
  rw [hc]
  simp

theorem cellAt_slot_some (g : Sheet) (q : Position) (row : List (Option Cell)) (c : Cell)
    (hq : q.IsValid) (hrow : g.get? q.row.toNat = some row)
    (hc : row.get? q.col.toNat = some (some c)) :
    cellAt g q = some c := by
  unfold cellAt slotAt
  rw [hrow]
  dsimp only
  rw [hc]
  simp [hq]

theorem updateCell_invalid (g : Sheet) (p : Position) (f : Cell → Cell) (hp : ¬ p.IsValid) :
    updateCell g p f = g := by
  simp [updateCell, hp]

theorem updateCell_row_none (g : Sheet) (p : Position) (f : Cell → Cell)
    (hrow : g.get? p.row.toNat = none) : updateCell g p f = g := by
  unfold updateCell
  rw [hrow]
  simp

theorem updateCell_slot_none (g : Sheet) (p : Position) (f : Cell → Cell)
    (row : List (Option Cell)) (hrow : g.get? p.row.toNat = some row)
    (hc : row.get? p.col.toNat = none) : updateCell g p f = g := by
  unfold updateCell
  rw [hrow]
  dsimp only
  rw [hc]
  simp

theorem updateCell_slot_empty (g : Sheet) (p : Position) (f : Cell → Cell)
    (row : List (Option Cell)) (hrow : g.get? p.row.toNat = some row)
    (hc : row.get? p.col.toNat = some none) : updateCell g p f = g := by
  unfold updateCell
  rw [hrow]
  dsimp only
  rw [hc]
  simp

theorem updateCell_slot_some (g : Sheet) (p : Position) (f : Cell → Cell)
    (row : List (Option Cell)) (c : Cell) (hp : p.IsValid)
    (hrow : g.get? p.row.toNat = some row) (hc : row.get? p.col.toNat = some (some c)) :
    updateCell g p f = g.set p.row.toNat (row.set p.col.toNat (some (f c))) := by
  unfold updateCell
  rw [hrow]
  dsimp only
  rw [hc]
  simp [hp]

theorem setSlot_invalid (g : Sheet) (p : Position) (v : Option Cell) (hp : ¬ p.IsValid) :
    setSlot g p v = g := by
  simp [setSlot, hp]

theorem setSlot_row_none (g : Sheet) (p : Position) (v : Option Cell)
    (hrow : g.get? p.row.toNat = none) : setSlot g p v = g := by
  unfold setSlot
  rw [hrow]
  simp

theorem setSlot_row_some (g : Sheet) (p : Position) (v : Option Cell)
    (row : List (Option Cell)) (hp : p.IsValid) (hrow : g.get? p.row.toNat = some row) :
    setSlot g p v = g.set p.row.toNat (row.set p.col.toNat v) := by
  unfold setSlot
  rw [hrow]
  simp [hp]

theorem cellAt_updateCell_self (g : Sheet) (p : Position) (f : Cell → Cell) :
    cellAt (updateCell g p f) p = (cellAt g p).map f := by
  by_cases hp : p.IsValid
  · cases hrow : g.get? p.row.toNat with
    | none =>
      rw [updateCell_row_none g p f hrow, cellAt_row_none g p hrow]
      rfl
    | some row =>
      cases hc : row.get? p.col.toNat with
      | none =>
        rw [updateCell_slot_none g p f row hrow hc, cellAt_slot_none g p row hrow hc]
        rfl
      | some oc =>
        cases oc with
        | none =>
          rw [updateCell_slot_empty g p f row hrow hc, cellAt_slot_empty g p row hrow hc]
          rfl
        | some c =>
          rw [updateCell_slot_some g p f row c hp hrow hc]
          rw [cellAt_slot_some g p row c hp hrow hc]
          have hrow' : (g.set p.row.toNat (row.set p.col.toNat (some (f c)))).get? p.row.toNat
              = some (row.set p.col.toNat (some (f c))) := by
            rw [List.get?_set_eq, hrow]
            rfl
          have hc' : (row.set p.col.toNat (some (f c))).get? p.col.toNat = some (some (f c)) := by
            rw [List.get?_set_eq, hc]
            rfl
          rw [cellAt_slot_some _ p _ (f c) hp hrow' hc']
          rfl
  · rw [updateCell_invalid g p f hp, cellAt_invalid g p hp]
    rfl

theorem cellAt_updateCell_ne (g : Sheet) (p : Position) (f : Cell → Cell) (q : Position)
    (hne : q ≠ p) : cellAt (updateCell g p f) q = cellAt g q := by
  by_cases hp : p.IsValid
  · cases hrow : g.get? p.row.toNat with
    | none => rw [updateCell_row_none g p f hrow]
    | some row =>
      cases hc : row.get? p.col.toNat with
      | none => rw [updateCell_slot_none g p f row hrow hc]
      | some oc =>
        cases oc with
        | none => rw [updateCell_slot_empty g p f row hrow hc]
        | some c =>
          rw [updateCell_slot_some g p f row c hp hrow hc]
          by_cases hq : q.IsValid
          · unfold cellAt slotAt
            simp only [hq, if_true]
            by_cases hr : q.row.toNat = p.row.toNat
            · have hcne : q.col.toNat ≠ p.col.toNat := by
                intro hcc
                exact hne (pos_coord_inj hq hp hr hcc)
              rw [hr, List.get?_set_eq, hrow]
              simp only [Option.map_some]
              rw [List.get?_set_ne _ _ (fun h => hcne h.symm)]
            · rw [List.get?_set_ne _ _ (fun h => hr h.symm)]
          · rw [cellAt_invalid _ q hq, cellAt_invalid g q hq]
  · rw [updateCell_invalid g p f hp]

theorem cellAt_setSlot_ne (g : Sheet) (p : Position) (v : Option Cell) (q : Position)
    (hne : q ≠ p) : cellAt (setSlot g p v) q = cellAt g q := by
  by_cases hp : p.IsValid
  · cases hrow : g.get? p.row.toNat with
    | none => rw [setSlot_row_none g p v hrow]
    | some row =>
      rw [setSlot_row_some g p v row hp hrow]
      by_cases hq : q.IsValid
      · unfold cellAt slotAt
        simp only [hq, if_true]
        by_cases hr : q.row.toNat = p.row.toNat
        · have hcne : q.col.toNat ≠ p.col.toNat := by
            intro hcc
            exact hne (pos_coord_inj hq hp hr hcc)
          rw [hr, List.get?_set_eq, hrow]
          simp only [Option.map_some]
          rw [List.get?_set_ne _ _ (fun h => hcne h.symm)]
        · rw [List.get?_set_ne _ _ (fun h => hr h.symm)]
      · rw [cellAt_invalid _ q hq, cellAt_invalid g q hq]
  · rw [setSlot_invalid g p v hp]

theorem cellAt_setSlot_self (g : Sheet) (p : Position) (v : Option Cell)
    (hp : p.IsValid) (hs : (slotAt g p).isSome) :
    cellAt (setSlot g p v) p = (match v with | some c => some c | none => none) := by
  unfold slotAt at hs
  cases hrow : g.get? p.row.toNat with
  | none =>
    rw [hrow] at hs
    exact absurd hs (by simp)
  | some row =>
    rw [hrow] at hs
    dsimp only at hs
    have hlt : p.col.toNat < row.length := by
      by_contra hge
      rw [List.get?_eq_none.2 (by omega)] at hs
      exact absurd hs (by simp)
    rw [setSlot_row_some g p v row hp hrow]
    have hrow' : (g.set p.row.toNat (row.set p.col.toNat v)).get? p.row.toNat
        = some (row.set p.col.toNat v) := by
      rw [List.get?_set_eq, hrow]
      rfl
    have hc' : (row.set p.col.toNat v).get? p.col.toNat = some v :=
      List.get?_set_eq_of_lt _ hlt
    cases v with
    | none => exact cellAt_slot_empty _ p _ hrow' hc'
    | some c => exact cellAt_slot_some _ p _ c hp hrow' hc'

theorem slotAt_resizeFor_self (g : Sheet) (p : Position) :
    (slotAt (resizeFor g p) p).isSome := by
  have hrnN : p.row.toNat < max (p.row.toNat + 1) g.length := by omega
  by_cases hlt : p.row.toNat < g.length
  · obtain ⟨row0, hrow0⟩ : ∃ row0, g.get? p.row.toNat = some row0 := by
      cases hx : g.get? p.row.toNat with
      | none => exact absurd (List.get?_eq_none.1 hx) (by omega)
      | some r => exact ⟨r, rfl⟩
    have hget : (padTo (max (p.row.toNat + 1) g.length) [] g).get? p.row.toNat = some row0 := by
      rw [get?_padTo_lt _ _ _ _ hlt]
      exact hrow0
    have hres : resizeFor g p =
        (padTo (max (p.row.toNat + 1) g.length) [] g).set p.row.toNat
          (padTo (max (p.col.toNat + 1) row0.length) none row0) := by
      unfold resizeFor
      dsimp only
      rw [hget]
    rw [hres]
    unfold slotAt
    rw [List.get?_set_eq, hget]
    simp only [Option.map_some]
    by_cases hqc : p.col.toNat < row0.length
    · rw [get?_padTo_lt _ _ _ _ hqc]
      have : row0.get? p.col.toNat ≠ none := by
        rw [Ne, List.get?_eq_none]
        omega
      cases hx : row0.get? p.col.toNat with
      | none => exact absurd hx this
      | some s => simp
    · rw [get?_padTo_pad _ _ _ _ (by omega) (by omega)]
      simp
  · have hget : (padTo (max (p.row.toNat + 1) g.length) [] g).get? p.row.toNat = some [] := by
      rw [get?_padTo_pad _ _ _ _ (by omega) hrnN]
    have hres : resizeFor g p =
        (padTo (max (p.row.toNat + 1) g.length) [] g).set p.row.toNat
          (padTo (max (p.col.toNat + 1) 0) none []) := by
      unfold resizeFor
      dsimp only
      rw [hget]
      rfl
    rw [hres]
    unfold slotAt
    rw [List.get?_set_eq, hget]
    simp only [Option.map_some]
    rw [get?_padTo_pad _ _ _ _ (by simp) (by omega)]
    simp

theorem cellAt_ensure_preserves (g : Sheet) (p q : Position) (c : Cell)
    (h : cellAt g q = some c) : cellAt (ensureCell g p) q = some c := by
  unfold ensureCell
  dsimp only
  have hq1 : cellAt (resizeFor g p) q = some c := by
    rw [cellAt_resizeFor]
    exact h
  split
  · next hnone =>
    have hqp : q ≠ p := by
      intro hqp
      rw [hqp] at hq1
      rw [hq1] at hnone
      exact Option.noConfusion hnone
    rw [cellAt_setSlot_ne _ _ _ _ hqp]
    exact hq1
  · exact hq1

theorem cellAt_ensure_ne (g : Sheet) (p q : Position) (hne : q ≠ p) :
    cellAt (ensureCell g p) q = cellAt g q := by
  unfold ensureCell
  dsimp only
  split
  · rw [cellAt_setSlot_ne _ _ _ _ hne, cellAt_resizeFor]
  · rw [cellAt_resizeFor]

theorem cellAt_ensure_absent (g : Sheet) (p : Position) (hp : p.IsValid)
    (h : cellAt g p = none) : cellAt (ensureCell g p) p = some freshCell := by
  unfold ensureCell
  dsimp only
  have h1 : cellAt (resizeFor g p) p = none := by
    rw [cellAt_resizeFor]
    exact h
  rw [if_pos h1]
  rw [cellAt_setSlot_self _ _ _ hp (slotAt_resizeFor_self g p)]

theorem matFold_preserves (refs : List Position) (g : Sheet) (q : Position) (c : Cell)
    (h : cellAt g q = some c) :
    cellAt (matStage g refs) q = some c := by
  unfold matStage
  induction refs generalizing g with
  | nil => exact h
  | cons r rest ih =>
    simp only [List.foldl_cons]
    apply ih
    split
    · exact cellAt_ensure_preserves _ _ _ _ h
    · exact h

/-- C1: whenever SetCell throws CircularDependencyException, every cell that
existed before the call is unchanged afterwards — same impl (hence same
content, text, value and cache) and same using/calculated edge sets; in
particular the target cell is not mutated. -/
theorem c1_circular_throw_preserves_cells :
    ∀ g p t g2, SetCell g p t = (some SheetError.circularDependency, g2) →
      ∀ q c, cellAt g q = some c → cellAt g2 q = some c := by
  intro g p t g2 hset q c hq
  by_cases hp : p.IsValid
  · rw [SetCell] at hset
    simp only [hp, if_true] at hset
    set g1 := resizeFor g p with hg1
    set gB := if cellAt g1 p = none then setSlot g1 p (some freshCell) else g1 with hgB
    have hq1 : cellAt g1 q = some c := by
      rw [hg1, cellAt_resizeFor]
      exact hq
    have hqB : cellAt gB q = some c := by
      rw [hgB]
      split
      · next hnone =>
        have hqp : q ≠ p := by
          intro h
          subst h
          rw [hq1] at hnone
          exact Option.noConfusion hnone
        rw [cellAt_setSlot_ne _ _ _ _ hqp]
        exact hq1
      · exact hq1
    rw [CellSet] at hset
    by_cases ht0 : t = ""
    · rw [if_pos ht0, cellSetCommit] at hset
      have hck : CheckCircularDependencies gB p CellImpl.empty.referencedCells = false := rfl
      simp only [hck, Bool.false_eq_true, if_false] at hset
      simp at hset
    · rw [if_neg ht0] at hset
      by_cases htf : 2 ≤ t.length ∧ t.front = FORMULA_SIGN
      · rw [if_pos htf] at hset
        cases hparse : parseFormula (t.drop 1) with
        | none =>
          rw [hparse] at hset
          simp at hset
        | some e =>
          rw [hparse] at hset
          dsimp only at hset
          set gF := matStage gB (GetReferencedCells e) with hgF
          rw [cellSetCommit] at hset
          cases hchk : CheckCircularDependencies gF p (CellImpl.formula e none).referencedCells with
          | false =>
            simp only [hchk, Bool.false_eq_true, if_false] at hset
            simp at hset
          | true =>
            simp only [hchk, if_true] at hset
            have hg2 : g2 = gF := by
              have := congrArg Prod.snd hset
              simpa using this.symm
            subst hg2
            rw [hgF]
            exact matFold_preserves _ _ _ _ hqB
      · rw [if_neg htf, cellSetCommit] at hset
        have hck : CheckCircularDependencies gB p (CellImpl.text t).referencedCells = false := rfl
        simp only [hck, Bool.false_eq_true, if_false] at hset
        simp at hset
  · rw [SetCell] at hset
    simp only [hp, if_false] at hset
    simp at hset

/-- C9: a SetCell at a valid position with no cell yet that throws
CircularDependencyException still materializes the target slot: afterwards
the slot holds a freshly constructed Empty cell, so the non-const GetCell
returns a non-null cell whose text is empty. -/
theorem c9_failed_setcell_materializes_target :
    ∀ g p t g2, p.IsValid → cellAt g p = none →
      SetCell g p t = (some SheetError.circularDependency, g2) →
      cellAt g2 p = some freshCell ∧ GetCell g2 p = .ok (some freshCell) ∧
      freshCell.getText = "" := by
  intro g p t g2 hp habs hset
  rw [SetCell] at hset
  simp only [hp, if_true] at hset
  set g1 := resizeFor g p with hg1
  have h1 : cellAt g1 p = none := by
    rw [hg1, cellAt_resizeFor]
    exact habs
  rw [if_pos h1] at hset
  set gB := setSlot g1 p (some freshCell) with hgB
  have hB : cellAt gB p = some freshCell := by
    rw [hgB, cellAt_setSlot_self _ _ _ hp]
    rw [hg1]
    exact slotAt_resizeFor_self g p
  rw [CellSet] at hset
  by_cases ht0 : t = ""
  · rw [if_pos ht0, cellSetCommit] at hset
    have hck : CheckCircularDependencies gB p CellImpl.empty.referencedCells = false := rfl
    simp only [hck, Bool.false_eq_true, if_false] at hset
    simp at hset
  · rw [if_neg ht0] at hset
    by_cases htf : 2 ≤ t.length ∧ t.front = FORMULA_SIGN
    · rw [if_pos htf] at hset
      cases hparse : parseFormula (t.drop 1) with
      | none =>
        rw [hparse] at hset
        simp at hset
      | some e =>
        rw [hparse] at hset
        dsimp only at hset
        set gF := matStage gB (GetReferencedCells e) with hgF
        rw [cellSetCommit] at hset
        cases hchk : CheckCircularDependencies gF p (CellImpl.formula e none).referencedCells with
        | false =>
          simp only [hchk, Bool.false_eq_true, if_false] at hset
          simp at hset
        | true =>
          simp only [hchk, if_true] at hset
          have hg2 : g2 = gF := by
            have := congrArg Prod.snd hset
            simpa using this.symm
          subst hg2
          have hcell : cellAt gF p = some freshCell := by
            rw [hgF]
            exact matFold_preserves _ _ _ _ hB
          refine ⟨hcell, ?_, rfl⟩
          rw [GetCell]
          simp only [hp, if_true]
          rw [← cellAt_eq_GetCellOpt _ _ hp, hcell]
    · rw [if_neg htf, cellSetCommit] at hset
      have hck : CheckCircularDependencies gB p (CellImpl.text t).referencedCells = false := rfl
      simp only [hck, Bool.false_eq_true, if_false] at hset
      simp at hset

/-- Witness for C1 at the spec scenario: Set(A1,"=B1") then Set(B1,"=A1");
the second call throws and A1 still holds the formula =B1 with its edges. -/
theorem c1_circular_witness :
    cellAt (SetCell (SetCell [] ⟨0, 0⟩ "=B1").2 ⟨0, 1⟩ "=A1").2 ⟨0, 0⟩ =
      some { impl := CellImpl.formula (Expr.ref ⟨0, 1⟩) none,
             usingCells := [⟨0, 1⟩], calculatedCells := [] } ∧
    Cell.getText { impl := CellImpl.formula (Expr.ref ⟨0, 1⟩) none,
                   usingCells := [⟨0, 1⟩], calculatedCells := [] } = "=B1" := by
  refine ⟨?_, by decide⟩
  exact c1_circular_throw_preserves_cells (SetCell [] ⟨0, 0⟩ "=B1").2 ⟨0, 1⟩ "=A1"
    (SetCell (SetCell [] ⟨0, 0⟩ "=B1").2 ⟨0, 1⟩ "=A1").2 (by decide) ⟨0, 0⟩ _ (by decide)

/-- Witness for C9: SetCell(A1,"=A1") on the empty sheet throws, yet A1 is
materialized as an Empty cell visible through the non-const GetCell. -/
theorem c9_materialize_witness :
    cellAt (SetCell [] ⟨0, 0⟩ "=A1").2 ⟨0, 0⟩ = some freshCell ∧
    GetCell (SetCell [] ⟨0, 0⟩ "=A1").2 ⟨0, 0⟩ = .ok (some freshCell) ∧
    freshCell.getText = "" :=
  c9_failed_setcell_materializes_target [] ⟨0, 0⟩ "=A1" (SetCell [] ⟨0, 0⟩ "=A1").2
    (by decide) (by decide) (by decide)

theorem resetCache_cacheOf (i : CellImpl) : i.resetCache.cacheOf = none := by
  cases i <;> rfl

theorem resetCache_idem (i : CellImpl) : i.resetCache.resetCache = i.resetCache := by
  cases i <;> rfl

theorem hasCache_false_cacheOf (i : CellImpl) (h : i.hasCache = false) : i.cacheOf = none := by
  cases i with
  | empty => exact absurd h (by simp [CellImpl.hasCache])
  | text s => exact absurd h (by simp [CellImpl.hasCache])
  | formula e cache =>
    cases cache with
    | none => rfl
    | some v => exact absurd h (by simp [CellImpl.hasCache])

theorem foldl_preserve {α : Type} (P : Sheet → Prop) (f : Sheet → α → Sheet) (l : List α)
    (hstep : ∀ g x, P g → P (f g x)) :
    ∀ g : Sheet, P g → P (l.foldl f g) := by
  induction l with
  | nil => exact fun g hg => hg
  | cons x rest ih => exact fun g hg => ih (f g x) (hstep g x hg)

theorem cacheAt_updateCell_reset (g : Sheet) (p : Position) (q : Position) :
    cacheAt (updateCell g p (fun cd => { cd with impl := cd.impl.resetCache })) q =
      (if q = p ∧ (cellAt g p).isSome then none else cacheAt g q) := by
  by_cases hq : q = p
  · subst hq
    unfold cacheAt
    rw [cellAt_updateCell_self]
    cases h : cellAt g q with
    | none => simp [h]
    | some c => simp [h, resetCache_cacheOf]
  · unfold cacheAt
    rw [cellAt_updateCell_ne _ _ _ _ hq]
    simp [hq]

theorem resetCache_keeps_none (f : Nat) :
    ∀ (g : Sheet) (p : Position) (force : Bool) (q : Position),
      cacheAt g q = none → cacheAt (ResetCache f g p force) q = none := by
  induction f with
  | zero => exact fun g p force q h => h
  | succ f ih =>
    intro g p force q h
    rw [ResetCache]
    cases hc : cellAt g p with
    | none => exact h
    | some c =>
      dsimp only
      split
      · apply foldl_preserve (fun s => cacheAt s q = none) _ _
          (fun s d hs => ih s d false q hs)
        rw [cacheAt_updateCell_reset]
        split
        · rfl
        · exact h
      · exact h

theorem resetCache_force_self_none (f : Nat) (g : Sheet) (p : Position) :
    cacheAt (ResetCache (f + 1) g p true) p = none := by
  rw [ResetCache]
  cases hc : cellAt g p with
  | none => unfold cacheAt; rw [hc]
  | some c =>
    dsimp only
    rw [if_pos (show (c.impl.hasCache || true) = true by simp)]
    apply foldl_preserve (fun s => cacheAt s p = none) _ _
      (fun s d hs => resetCache_keeps_none f s d false p hs)
    rw [cacheAt_updateCell_reset]
    simp [hc]

theorem resetCache_dep_none (f : Nat) (g : Sheet) (d : Position) :
    cacheAt (ResetCache (f + 1) g d false) d = none ∨ cacheAt g d = none := by
  rw [ResetCache]
  cases hc : cellAt g d with
  | none => right; unfold cacheAt; rw [hc]
  | some c =>
    dsimp only
    split
    · left
      apply foldl_preserve (fun s => cacheAt s d = none) _ _
        (fun s x hs => resetCache_keeps_none f s x false d hs)
      rw [cacheAt_updateCell_reset]
      simp [hc]
    · next hnc =>
      right
      unfold cacheAt
      rw [hc]
      simp only [Bool.or_false] at hnc
      exact hasCache_false_cacheOf _ (by revert hnc; cases c.impl.hasCache <;> simp)

theorem resetCache_false_self_none (f : Nat) (g : Sheet) (d : Position) :
    cacheAt (ResetCache (f + 1) g d false) d = none := by
  rw [ResetCache]
  cases hc : cellAt g d with
  | none => unfold cacheAt; rw [hc]
  | some c =>
    dsimp only
    split
    · apply foldl_preserve (fun s => cacheAt s d = none) _ _
        (fun s x hs => resetCache_keeps_none f s x false d hs)
      rw [cacheAt_updateCell_reset]
      simp [hc]
    · next hnc =>
      unfold cacheAt
      rw [hc]
      simp only [Bool.or_false] at hnc
      exact hasCache_false_cacheOf _ (by revert hnc; cases c.impl.hasCache <;> simp)

theorem fold_resetCache_deps (f : Nat) (l : List Position) :
    ∀ (g : Sheet) (d : Position), d ∈ l →
      cacheAt (l.foldl (fun acc x => ResetCache (f + 1) acc x false) g) d = none := by
  induction l with
  | nil => intro g d hd; exact absurd hd (List.not_mem_nil d)
  | cons x rest ih =>
    intro g d hd
    simp only [List.foldl_cons]
    rcases List.mem_cons.1 hd with rfl | hd'
    · apply foldl_preserve (fun s => cacheAt s d = none) _ _
        (fun s y hs => resetCache_keeps_none (f + 1) s y false d hs)
      exact resetCache_false_self_none f g d
    · exact ih _ d hd'

theorem stripCell_updateCell_strip (g : Sheet) (p : Position) (q : Position) :
    (cellAt (updateCell g p (fun cd => { cd with impl := cd.impl.resetCache })) q).map
        (fun c => { c with impl := c.impl.resetCache }) =
      (cellAt g q).map (fun c => { c with impl := c.impl.resetCache }) := by
  by_cases hq : q = p
  · subst hq
    rw [cellAt_updateCell_self]
    cases cellAt g q with
    | none => rfl
    | some c => simp [resetCache_idem]
  · rw [cellAt_updateCell_ne _ _ _ _ hq]

theorem resetCacheF_strip (f : Nat) :
    ∀ (g : Sheet) (p : Position) (force : Bool) (q : Position),
      (cellAt (ResetCache f g p force) q).map (fun c => { c with impl := c.impl.resetCache }) =
        (cellAt g q).map (fun c => { c with impl := c.impl.resetCache }) := by
  induction f with
  | zero => intro g p force q; rfl
  | succ f ih =>
    intro g p force q
    rw [ResetCache]
    cases hc : cellAt g p with
    | none => rfl
    | some c =>
      dsimp only
      split
      · exact foldl_preserve
          (fun s => (cellAt s q).map (fun c => { c with impl := c.impl.resetCache }) =
            (cellAt g q).map (fun c => { c with impl := c.impl.resetCache }))
          (fun acc d => ResetCache f acc d false) c.calculatedCells
          (fun s d hs => (ih s d false q).trans hs) _
          (stripCell_updateCell_strip g p q)
      · rfl

theorem calcAt_of_strip_eq (g1 g2 : Sheet) (q : Position)
    (h : (cellAt g1 q).map (fun c => { c with impl := c.impl.resetCache }) =
      (cellAt g2 q).map (fun c => { c with impl := c.impl.resetCache })) :
    calcAt g1 q = calcAt g2 q := by
  unfold calcAt
  cases h1 : cellAt g1 q with
  | none =>
    rw [h1] at h
    cases h2 : cellAt g2 q with
    | none => rfl
    | some c2 => rw [h2] at h; exact absurd h (by simp)
  | some c1 =>
    rw [h1] at h
    cases h2 : cellAt g2 q with
    | none => rw [h2] at h; exact absurd h (by simp)
    | some c2 =>
      rw [h2] at h
      simp only [Option.map, Option.some.injEq] at h
      have h3 := congrArg Cell.calculatedCells h
      exact h3

theorem updateCell_isSome (g : Sheet) (r : Position) (f : Cell → Cell) (q : Position)
    (h : (cellAt g q).isSome) : (cellAt (updateCell g r f) q).isSome := by
  by_cases hq : q = r
  · subst hq
    rw [cellAt_updateCell_self]
    simpa using h
  · rw [cellAt_updateCell_ne _ _ _ _ hq]
    exact h

theorem ensure_isSome (g : Sheet) (r : Position) (q : Position)
    (h : (cellAt g q).isSome) : (cellAt (ensureCell g r) q).isSome := by
  cases hx : cellAt g q with
  | none => rw [hx] at h; exact absurd h (by simp)
  | some c => rw [cellAt_ensure_preserves g r q c hx]; rfl

theorem totalSlots_aux (g : Sheet) (a : Nat) :
    g.foldl (fun n r => n + r.length) a = a + g.foldl (fun n r => n + r.length) 0 := by
  induction g generalizing a with
  | nil => simp
  | cons r rest ih =>
    simp only [List.foldl_cons, Nat.zero_add]
    rw [ih (a + r.length), ih r.length]
    omega

theorem row_length_le_totalSlots (g : Sheet) :
    ∀ (n : Nat) (row : List (Option Cell)), g.get? n = some row →
      row.length ≤ totalSlots g := by
  unfold totalSlots
  induction g with
  | nil => intro n row h; simp at h
  | cons r0 rest ih =>
    intro n row h
    simp only [List.foldl_cons, Nat.zero_add]
    rw [totalSlots_aux]
    cases n with
    | zero =>
      simp only [List.get?, Option.some.injEq] at h
      subst h
      omega
    | succ n =>
      simp only [List.get?] at h
      have hrec := ih n row h
      omega

theorem totalSlots_pos (g : Sheet) (p : Position) (h : (cellAt g p).isSome) :
    1 ≤ totalSlots g := by
  unfold cellAt slotAt at h
  by_cases hp : p.IsValid
  · simp only [hp, if_true] at h
    cases hrow : g.get? p.row.toNat with
    | none => rw [hrow] at h; exact absurd h (by simp)
    | some row =>
      rw [hrow] at h
      dsimp only at h
      have hcn : p.col.toNat < row.length := by
        by_contra hge
        rw [List.get?_eq_none.2 (by omega)] at h
        exact absurd h (by simp)
      have hlen := row_length_le_totalSlots g p.row.toNat row hrow
      omega
  · simp only [hp, if_false] at h
    exact absurd h (by simp)

theorem rehookStep_isSome (p : Position) (acc : Sheet) (q r : Position)
    (h : (cellAt acc r).isSome) : (cellAt (rehookStep p acc q) r).isSome := by
  unfold rehookStep
  dsimp only
  apply updateCell_isSome
  apply updateCell_isSome
  split
  · exact ensure_isSome _ _ _ h
  · exact h

theorem unhookStage_isSome (g : Sheet) (p r : Position)
    (h : (cellAt g r).isSome) : (cellAt (unhookStage g p) r).isSome := by
  unfold unhookStage
  dsimp only
  apply updateCell_isSome
  exact foldl_preserve (fun s => (cellAt s r).isSome) _ _
    (fun s u hs => updateCell_isSome _ _ _ _ hs) _ h

theorem rehookStage_isSome (g : Sheet) (p : Position) (refs : List Position) (r : Position)
    (h : (cellAt g r).isSome) : (cellAt (rehookStage g p refs) r).isSome := by
  unfold rehookStage
  exact foldl_preserve (fun s => (cellAt s r).isSome) _ _
    (fun s q hs => rehookStep_isSome p s q r hs) _ h

theorem resetTail_cache (g4 : Sheet) (p : Position) (hS : (cellAt g4 p).isSome) :
    cacheAt (ResetCache (totalSlots g4 + 1) g4 p true) p = none ∧
    (∀ cd, cellAt (ResetCache (totalSlots g4 + 1) g4 p true) p = some cd →
      ∀ d, d ∈ cd.calculatedCells →
        cacheAt (ResetCache (totalSlots g4 + 1) g4 p true) d = none) := by
  have hpos := totalSlots_pos g4 p hS
  obtain ⟨S, hsplit⟩ : ∃ S, totalSlots g4 = S + 1 := ⟨totalSlots g4 - 1, by omega⟩
  obtain ⟨c4, hc4⟩ : ∃ c4, cellAt g4 p = some c4 := by
    cases hx : cellAt g4 p with
    | none => rw [hx] at hS; exact absurd hS (by simp)
    | some c => exact ⟨c, rfl⟩
  constructor
  · exact resetCache_force_self_none _ _ _
  · intro cd hcd d hd
    have hcalc : cd.calculatedCells = c4.calculatedCells := by
      have hstrip := resetCacheF_strip (totalSlots g4 + 1) g4 p true p
      have hca := calcAt_of_strip_eq _ _ p hstrip
      unfold calcAt at hca
      rw [hcd, hc4] at hca
      exact hca
    rw [hcalc] at hd
    rw [show totalSlots g4 + 1 = (S + 1) + 1 by omega, ResetCache, hc4]
    dsimp only
    rw [if_pos (show (c4.impl.hasCache || true) = true by simp)]
    exact fold_resetCache_deps S _ _ d hd

theorem cellSetCommit_success_cache (g : Sheet) (p : Position) (impl : CellImpl) (g2 : Sheet)
    (hsome : (cellAt g p).isSome)
    (hcommit : cellSetCommit g p impl = (none, g2)) :
    cacheAt g2 p = none ∧
    (∀ cd, cellAt g2 p = some cd → ∀ d, d ∈ cd.calculatedCells → cacheAt g2 d = none) := by
  rw [cellSetCommit] at hcommit
  cases hchk : CheckCircularDependencies g p impl.referencedCells with
  | true =>
    simp only [hchk, if_true] at hcommit
    simp at hcommit
  | false =>
    simp only [hchk, Bool.false_eq_true, if_false] at hcommit
    have hg2 : g2 = ResetCache
        (totalSlots (rehookStage (unhookStage (implSwap g p impl) p) p impl.referencedCells) + 1)
        (rehookStage (unhookStage (implSwap g p impl) p) p impl.referencedCells) p true := by
      have := congrArg Prod.snd hcommit
      simpa using this.symm
    subst hg2
    have hsome4 : (cellAt (rehookStage (unhookStage (implSwap g p impl) p) p
        impl.referencedCells) p).isSome :=
      rehookStage_isSome _ _ _ _ (unhookStage_isSome _ _ _ (updateCell_isSome _ _ _ _ hsome))
    exact resetTail_cache _ p hsome4

/-- C2 (amended): after any successful SetCell(p, _), p's own cache and the
cache of every direct dependent of p (every cell in p's `calculated_cells_`)
are absent; transitive dependents farther along used_by chains may keep a
cached value because the invalidation stops at formula cells whose cache is
already absent. -/
theorem c2_amended_direct_dependents_uncached :
    ∀ g p t g2, SetCell g p t = (none, g2) →
      cacheAt g2 p = none ∧
      (∀ cd, cellAt g2 p = some cd → ∀ d, d ∈ cd.calculatedCells → cacheAt g2 d = none) := by
  intro g p t g2 hset
  by_cases hp : p.IsValid
  · rw [SetCell] at hset
    simp only [hp, if_true] at hset
    set g1 := resizeFor g p with hg1
    set gB := if cellAt g1 p = none then setSlot g1 p (some freshCell) else g1 with hgB
    have hBsome : (cellAt gB p).isSome := by
      rw [hgB]
      split
      · rw [hg1, cellAt_setSlot_self _ _ _ hp (slotAt_resizeFor_self g p)]
        rfl
      · next hocc => exact Option.ne_none_iff_isSome.1 hocc
    rw [CellSet] at hset
    by_cases ht0 : t = ""
    · rw [if_pos ht0] at hset
      exact cellSetCommit_success_cache gB p .empty g2 hBsome hset
    · rw [if_neg ht0] at hset
      by_cases htf : 2 ≤ t.length ∧ t.front = FORMULA_SIGN
      · rw [if_pos htf] at hset
        cases hparse : parseFormula (t.drop 1) with
        | none =>
          rw [hparse] at hset
          simp at hset
        | some e =>
          rw [hparse] at hset
          have hFsome : (cellAt (matStage gB (GetReferencedCells e)) p).isSome := by
            cases hx : cellAt gB p with
            | none => rw [hx] at hBsome; exact absurd hBsome (by simp)
            | some c => rw [matFold_preserves _ _ _ _ hx]; rfl
          exact cellSetCommit_success_cache _ p _ g2 hFsome hset
      · rw [if_neg htf] at hset
        exact cellSetCommit_success_cache gB p (.text t) g2 hBsome hset
  · rw [SetCell] at hset
    simp only [hp, if_false] at hset
    simp at hset

/-- C2 counterexample: in the staleSheet run, SetCell(X1,"5") succeeds, C1
is reachable from X1 along used_by edges (X1 → B1 → C1), yet C1 still holds
its cached Value error — the claimed invariant over used_by* fails because
the invalidation stopped at the uncached B1. -/
theorem c2_counterexample_stale_transitive_cache :
    (SetCell staleSheet ⟨0, 23⟩ "5").1 = none ∧
    UsedByReach staleSheetAfter ⟨0, 23⟩ ⟨0, 2⟩ ∧
    cacheAt staleSheetAfter ⟨0, 2⟩ = some (FValue.ferr FormulaError.Value) := by
  refine ⟨by decide, ?_, by decide⟩
  have h1 : UsedByStep staleSheetAfter ⟨0, 23⟩ ⟨0, 1⟩ := by decide
  have h2 : UsedByStep staleSheetAfter ⟨0, 1⟩ ⟨0, 2⟩ := by decide
  exact Relation.ReflTransGen.tail (Relation.ReflTransGen.tail Relation.ReflTransGen.refl h1) h2

/-- Witness for the amended C2 at the staleSheet run: after SetCell(X1,"5"),
X1 and every direct dependent of X1 are uncached. -/
theorem c2_amended_witness :
    cacheAt staleSheetAfter ⟨0, 23⟩ = none ∧
    (∀ cd, cellAt staleSheetAfter ⟨0, 23⟩ = some cd →
      ∀ d, d ∈ cd.calculatedCells → cacheAt staleSheetAfter d = none) :=
  c2_amended_direct_dependents_uncached staleSheet ⟨0, 23⟩ "5" staleSheetAfter (by decide)

theorem filter_ne_idem (l : List Position) (p : Position) :
    (l.filter (fun x => decide (x ≠ p))).filter (fun x => decide (x ≠ p)) =
      l.filter (fun x => decide (x ≠ p)) := by
  induction l with
  | nil => rfl
  | cons x rest ih =>
    by_cases hx : x = p
    · simp [List.filter, hx, ih]
    · simp [List.filter, hx, ih]

theorem fold_erase_cellAt (p : Position) (L : List Position) :
    ∀ (g : Sheet) (q : Position),
      cellAt (L.foldl (fun acc u => updateCell acc u
        (fun cd => { cd with calculatedCells := cd.calculatedCells.filter (fun x => decide (x ≠ p)) })) g) q =
      (if q ∈ L then (cellAt g q).map
        (fun cd => { cd with calculatedCells := cd.calculatedCells.filter (fun x => decide (x ≠ p)) })
      else cellAt g q) := by
  induction L with
  | nil => intro g q; simp
  | cons u rest ih =>
    intro g q
    simp only [List.foldl_cons]
    rw [ih]
    by_cases hqr : q ∈ rest
    · simp only [hqr, if_true, List.mem_cons, or_true, if_true]
      by_cases hqu : q = u
      · subst hqu
        rw [cellAt_updateCell_self]
        cases cellAt g q with
        | none => rfl
        | some c => simp [filter_ne_idem]
      · rw [cellAt_updateCell_ne _ _ _ _ hqu]
    · by_cases hqu : q = u
      · subst hqu
        simp only [hqr, if_false, List.mem_cons, true_or, if_true]
        rw [cellAt_updateCell_self]
      · simp only [hqr, if_false]
        have : ¬ q ∈ u :: rest := by
          rw [List.mem_cons]
          push_neg
          exact ⟨hqu, hqr⟩
        simp only [this, if_false]
        rw [cellAt_updateCell_ne _ _ _ _ hqu]

theorem unhook_cellAt (g : Sheet) (p : Position) (q : Position) :
    cellAt (unhookStage g p) q =
      (if q = p then
        ((if q ∈ usingAt g p then (cellAt g q).map
            (fun cd => { cd with calculatedCells := cd.calculatedCells.filter (fun x => decide (x ≠ p)) })
          else cellAt g q)).map (fun cd => { cd with usingCells := [] })
      else
        (if q ∈ usingAt g p then (cellAt g q).map
            (fun cd => { cd with calculatedCells := cd.calculatedCells.filter (fun x => decide (x ≠ p)) })
          else cellAt g q)) := by
  unfold unhookStage
  dsimp only
  by_cases hq : q = p
  · subst hq
    rw [cellAt_updateCell_self, fold_erase_cellAt]
    simp
  · rw [cellAt_updateCell_ne _ _ _ _ hq, fold_erase_cellAt]
    simp [hq]

theorem rehookStep_cellAt (p : Position) (acc : Sheet) (q r : Position)
    (hq : q.IsValid) (hpq : q ≠ p) :
    cellAt (rehookStep p acc q) r =
      (if r = p then (cellAt acc p).map
          (fun cd => { cd with usingCells := insertUnique q cd.usingCells })
      else if r = q then
        some { (cellAt acc q).getD freshCell with
               calculatedCells := insertUnique p (((cellAt acc q).getD freshCell).calculatedCells) }
      else cellAt acc r) := by
  unfold rehookStep
  dsimp only
  have hacc1 : ∀ r', cellAt (if GetCellOpt acc q = none then ensureCell acc q else acc) r' =
      (if r' = q then some ((cellAt acc q).getD freshCell) else cellAt acc r') := by
    intro r'
    by_cases hmiss : GetCellOpt acc q = none
    · rw [if_pos hmiss]
      have hcnone : cellAt acc q = none := by
        rw [cellAt_eq_GetCellOpt acc q hq]
        exact hmiss
      by_cases hr' : r' = q
      · subst hr'
        rw [cellAt_ensure_absent acc r' hq hcnone, hcnone]
        simp
      · rw [cellAt_ensure_ne acc q r' hr']
        simp [hr']
    · rw [if_neg hmiss]
      have hcsome : cellAt acc q = GetCellOpt acc q := cellAt_eq_GetCellOpt acc q hq
      by_cases hr' : r' = q
      · subst hr'
        rw [if_pos rfl]
        cases hx : cellAt acc r' with
        | none => rw [hcsome] at hx; exact absurd hx hmiss
        | some c => rfl
      · simp [hr']
  by_cases hrp : r = p
  · have hrq : r ≠ q := fun h => hpq (h ▸ hrp)
    rw [cellAt_updateCell_ne _ _ _ _ hrq, hrp, cellAt_updateCell_self, hacc1 p]
    rw [if_neg (fun h => hpq h.symm), if_pos rfl]
  · by_cases hrq : r = q
    · rw [hrq, cellAt_updateCell_self, cellAt_updateCell_ne _ _ _ _ hpq, hacc1 q, if_pos rfl]
      rw [if_neg hpq, if_pos rfl]
      rfl
    · rw [cellAt_updateCell_ne _ _ _ _ hrq, cellAt_updateCell_ne _ _ _ _ hrp, hacc1 r]
      rw [if_neg hrq, if_neg hrp, if_neg hrq]

theorem ginv_congr (g g' : Sheet) (hcong : ∀ q, cellAt g' q = cellAt g q) (h : GInv g) :
    GInv g' := by
  obtain ⟨hsym, hgh, hns, htx⟩ := h
  refine ⟨?_, ?_, ?_, ?_⟩
  · intro a b ca cb ha hb
    exact hsym a b ca cb ((hcong a) ▸ ha) ((hcong b) ▸ hb)
  · intro a ca ha
    obtain ⟨h1, h2⟩ := hgh a ca ((hcong a) ▸ ha)
    exact ⟨fun b hb => (hcong b) ▸ h1 b hb, fun b hb => (hcong b) ▸ h2 b hb⟩
  · intro a ca ha
    exact hns a ca ((hcong a) ▸ ha)
  · intro a ca s ha
    exact htx a ca s ((hcong a) ▸ ha)

theorem text_resetCache_iff (i : CellImpl) (s : String) :
    i.resetCache = .text s ↔ i = .text s := by
  cases i <;> simp [CellImpl.resetCache]

theorem strip_eq_cases (g1 g2 : Sheet) (q : Position)
    (h : (cellAt g1 q).map (fun c => { c with impl := c.impl.resetCache }) =
      (cellAt g2 q).map (fun c => { c with impl := c.impl.resetCache })) :
    (cellAt g1 q = none ∧ cellAt g2 q = none) ∨
    (∃ c1 c2, cellAt g1 q = some c1 ∧ cellAt g2 q = some c2 ∧
      c1.usingCells = c2.usingCells ∧ c1.calculatedCells = c2.calculatedCells ∧
      (∀ s, c1.impl = .text s ↔ c2.impl = .text s)) := by
  cases h1 : cellAt g1 q with
  | none =>
    rw [h1] at h
    cases h2 : cellAt g2 q with
    | none => exact Or.inl ⟨rfl, rfl⟩
    | some c2 => rw [h2] at h; exact absurd h (by simp)
  | some c1 =>
    rw [h1] at h
    cases h2 : cellAt g2 q with
    | none => rw [h2] at h; exact absurd h (by simp)
    | some c2 =>
      rw [h2] at h
      simp only [Option.map, Option.some.injEq] at h
      refine Or.inr ⟨c1, c2, rfl, rfl, ?_, ?_, ?_⟩
      · have h3 := congrArg Cell.usingCells h
        exact h3
      · have h3 := congrArg Cell.calculatedCells h
        exact h3
      · intro s
        have h3 := congrArg (fun c => c.impl) h
        dsimp only at h3
        constructor
        · intro hs
          exact (text_resetCache_iff _ s).1 (h3 ▸ (text_resetCache_iff _ s).2 hs)
        · intro hs
          exact (text_resetCache_iff _ s).1 (h3.symm ▸ (text_resetCache_iff _ s).2 hs)

theorem ginv_of_strip (g g' : Sheet)
    (h : ∀ q, (cellAt g' q).map (fun c => { c with impl := c.impl.resetCache }) =
      (cellAt g q).map (fun c => { c with impl := c.impl.resetCache }))
    (hg : GInv g) : GInv g' := by
  obtain ⟨hsym, hgh, hns, htx⟩ := hg
  refine ⟨?_, ?_, ?_, ?_⟩
  · intro a b ca cb ha hb
    rcases strip_eq_cases g' g a (h a) with ⟨hn, -⟩ | ⟨c1, c2, h1, h2, hu, hc, -⟩
    · rw [hn] at ha; exact Option.noConfusion ha
    · rcases strip_eq_cases g' g b (h b) with ⟨hn', -⟩ | ⟨d1, d2, h1', h2', hu', hc', -⟩
      · rw [hn'] at hb; exact Option.noConfusion hb
      · rw [h1] at ha
        rw [h1'] at hb
        cases ha
        cases hb
        rw [hu, hc']
        exact hsym a b c2 d2 h2 h2'
  · intro a ca ha
    rcases strip_eq_cases g' g a (h a) with ⟨hn, -⟩ | ⟨c1, c2, h1, h2, hu, hc, -⟩
    · rw [hn] at ha; exact Option.noConfusion ha
    · rw [h1] at ha
      cases ha
      obtain ⟨hg1, hg2⟩ := hgh a c2 h2
      constructor
      · intro b hb
        rw [hu] at hb
        rcases strip_eq_cases g' g b (h b) with ⟨hn', hn2⟩ | ⟨d1, d2, h1', h2', -⟩
        · have hx := hg1 b hb
          rw [hn2] at hx
          exact absurd hx (by simp)
        · rw [h1']; rfl
      · intro b hb
        rw [hc] at hb
        rcases strip_eq_cases g' g b (h b) with ⟨hn', hn2⟩ | ⟨d1, d2, h1', h2', -⟩
        · have hx := hg2 b hb
          rw [hn2] at hx
          exact absurd hx (by simp)
        · rw [h1']; rfl
  · intro a ca ha
    rcases strip_eq_cases g' g a (h a) with ⟨hn, -⟩ | ⟨c1, c2, h1, h2, hu, hc, -⟩
    · rw [hn] at ha; exact Option.noConfusion ha
    · rw [h1] at ha
      cases ha
      rw [hu, hc]
      exact hns a c2 h2
  · intro a ca s ha hs
    rcases strip_eq_cases g' g a (h a) with ⟨hn, -⟩ | ⟨c1, c2, h1, h2, -, -, hti⟩
    · rw [hn] at ha; exact Option.noConfusion ha
    · rw [h1] at ha
      cases ha
      exact htx a c2 s h2 ((hti s).1 hs)

theorem ginv_ensure (g : Sheet) (p : Position) (hp : p.IsValid) (h : GInv g) :
    GInv (ensureCell g p) := by
  cases hocc : cellAt g p with
  | some c =>
    refine ginv_congr g _ (fun q => ?_) h
    by_cases hq : q = p
    · subst hq
      rw [cellAt_ensure_preserves g q q c hocc, hocc]
    · exact cellAt_ensure_ne g p q hq
  | none =>
    obtain ⟨hsym, hgh, hns, htx⟩ := h
    have hchar : ∀ q, cellAt (ensureCell g p) q =
        (if q = p then some freshCell else cellAt g q) := by
      intro q
      by_cases hq : q = p
      · subst hq
        rw [cellAt_ensure_absent g q hp hocc, if_pos rfl]
      · rw [cellAt_ensure_ne g p q hq, if_neg hq]
    refine ⟨?_, ?_, ?_, ?_⟩
    · intro a b ca cb ha hb
      rw [hchar a] at ha
      rw [hchar b] at hb
      by_cases hap : a = p
      · subst hap
        rw [if_pos rfl] at ha
        cases ha
        by_cases hbp : b = a
        · subst hbp
          rw [if_pos rfl] at hb
          cases hb
          simp [freshCell]
        · rw [if_neg hbp] at hb
          constructor
          · intro hmem
            exact absurd hmem (by simp [freshCell])
          · intro hmem
            have := (hgh b cb hb).2 a hmem
            rw [hocc] at this
            exact absurd this (by simp)
      · rw [if_neg hap] at ha
        by_cases hbp : b = p
        · subst hbp
          rw [if_pos rfl] at hb
          cases hb
          constructor
          · intro hmem
            have := (hgh a ca ha).1 b hmem
            rw [hocc] at this
            exact absurd this (by simp)
          · intro hmem
            exact absurd hmem (by simp [freshCell])
        · rw [if_neg hbp] at hb
          exact hsym a b ca cb ha hb
    · intro a ca ha
      rw [hchar a] at ha
      by_cases hap : a = p
      · subst hap
        rw [if_pos rfl] at ha
        cases ha
        constructor
        · intro b hb
          exact absurd hb (by simp [freshCell])
        · intro b hb
          exact absurd hb (by simp [freshCell])
      · rw [if_neg hap] at ha
        obtain ⟨h1, h2⟩ := hgh a ca ha
        constructor
        · intro b hb
          rw [hchar b]
          by_cases hbp : b = p
          · rw [if_pos hbp]; rfl
          · rw [if_neg hbp]; exact h1 b hb
        · intro b hb
          rw [hchar b]
          by_cases hbp : b = p
          · rw [if_pos hbp]; rfl
          · rw [if_neg hbp]; exact h2 b hb
    · intro a ca ha
      rw [hchar a] at ha
      by_cases hap : a = p
      · subst hap
        rw [if_pos rfl] at ha
        cases ha
        simp [freshCell]
      · rw [if_neg hap] at ha
        exact hns a ca ha
    · intro a ca s ha
      rw [hchar a] at ha
      by_cases hap : a = p
      · subst hap
        rw [if_pos rfl] at ha
        cases ha
        intro hs
        exact absurd hs (by simp [freshCell])
      · rw [if_neg hap] at ha
        exact htx a ca s ha

theorem ginv_matStage (g : Sheet) (refs : List Position) (h : GInv g) :
    GInv (matStage g refs) := by
  unfold matStage
  refine foldl_preserve GInv _ _ (fun s q hs => ?_) g h
  split
  · next hcond => exact ginv_ensure s q hcond.1 hs
  · exact hs

theorem ginv_implSwap (g : Sheet) (p : Position) (impl : CellImpl)
    (himpl : ∀ s, impl = .text s → s ≠ "") (h : GInv g) : GInv (implSwap g p impl) := by
  obtain ⟨hsym, hgh, hns, htx⟩ := h
  have hchar : ∀ q, cellAt (implSwap g p impl) q =
      (if q = p then (cellAt g p).map (fun cd => { cd with impl := impl }) else cellAt g q) := by
    intro q
    unfold implSwap
    by_cases hq : q = p
    · subst hq
      rw [cellAt_updateCell_self, if_pos rfl]
    · rw [cellAt_updateCell_ne _ _ _ _ hq, if_neg hq]
  have hedge : ∀ q cq, cellAt (implSwap g p impl) q = some cq →
      ∃ c0, cellAt g q = some c0 ∧ cq.usingCells = c0.usingCells ∧
        cq.calculatedCells = c0.calculatedCells := by
    intro q cq hq
    rw [hchar q] at hq
    by_cases hqp : q = p
    · rw [if_pos hqp] at hq
      cases hx : cellAt g p with
      | none => rw [hx] at hq; exact Option.noConfusion hq
      | some c0 =>
        rw [hx] at hq
        simp only [Option.map, Option.some.injEq] at hq
        subst hq
        exact ⟨c0, hqp ▸ hx, rfl, rfl⟩
    · rw [if_neg hqp] at hq
      exact ⟨cq, hq, rfl, rfl⟩
  refine ⟨?_, ?_, ?_, ?_⟩
  · intro a b ca cb ha hb
    obtain ⟨a0, ha0, hau, hac⟩ := hedge a ca ha
    obtain ⟨b0, hb0, hbu, hbc⟩ := hedge b cb hb
    rw [hau, hbc]
    exact hsym a b a0 b0 ha0 hb0
  · intro a ca ha
    obtain ⟨a0, ha0, hau, hac⟩ := hedge a ca ha
    obtain ⟨h1, h2⟩ := hgh a a0 ha0
    constructor
    · intro b hb
      rw [hau] at hb
      rw [hchar b]
      by_cases hbp : b = p
      · rw [if_pos hbp]
        have := h1 b hb
        rw [hbp] at this
        cases hx : cellAt g p with
        | none => rw [hx] at this; exact absurd this (by simp)
        | some c0 => rfl
      · rw [if_neg hbp]
        exact h1 b hb
    · intro b hb
      rw [hac] at hb
      rw [hchar b]
      by_cases hbp : b = p
      · rw [if_pos hbp]
        have := h2 b hb
        rw [hbp] at this
        cases hx : cellAt g p with
        | none => rw [hx] at this; exact absurd this (by simp)
        | some c0 => rfl
      · rw [if_neg hbp]
        exact h2 b hb
  · intro a ca ha
    obtain ⟨a0, ha0, hau, hac⟩ := hedge a ca ha
    rw [hau, hac]
    exact hns a a0 ha0
  · intro a ca s ha hs
    rw [hchar a] at ha
    by_cases hap : a = p
    · rw [if_pos hap] at ha
      cases hx : cellAt g p with
      | none => rw [hx] at ha; exact Option.noConfusion ha
      | some c0 =>
        rw [hx] at ha
        simp only [Option.map, Option.some.injEq] at ha
        subst ha
        exact himpl s hs
    · rw [if_neg hap] at ha
      exact htx a ca s ha hs

theorem mem_filter_ne (x p : Position) (l : List Position) :
    x ∈ l.filter (fun y => decide (y ≠ p)) ↔ (x ∈ l ∧ x ≠ p) := by
  rw [List.mem_filter]
  simp

theorem unhook_cell_fields (g : Sheet) (p q : Position) (cq : Cell)
    (h : cellAt g q = some cq) :
    ∃ cq', cellAt (unhookStage g p) q = some cq' ∧
      cq'.impl = cq.impl ∧
      cq'.usingCells = (if q = p then [] else cq.usingCells) ∧
      cq'.calculatedCells = (if q ∈ usingAt g p then
        cq.calculatedCells.filter (fun x => decide (x ≠ p)) else cq.calculatedCells) := by
  rw [unhook_cellAt g p q]
  by_cases hqp : q = p
  · rw [if_pos hqp, if_pos hqp]
    by_cases hqL : q ∈ usingAt g p
    · rw [if_pos hqL, if_pos hqL, h]
      exact ⟨_, rfl, rfl, rfl, rfl⟩
    · rw [if_neg hqL, if_neg hqL, h]
      exact ⟨_, rfl, rfl, rfl, rfl⟩
  · rw [if_neg hqp, if_neg hqp]
    by_cases hqL : q ∈ usingAt g p
    · rw [if_pos hqL, if_pos hqL, h]
      exact ⟨_, rfl, rfl, rfl, rfl⟩
    · rw [if_neg hqL, if_neg hqL, h]
      exact ⟨_, rfl, rfl, rfl, rfl⟩

theorem unhook_cell_none (g : Sheet) (p q : Position) (h : cellAt g q = none) :
    cellAt (unhookStage g p) q = none := by
  rw [unhook_cellAt g p q, h]
  by_cases hqp : q = p
  · rw [if_pos hqp]
    by_cases hqL : q ∈ usingAt g p
    · rw [if_pos hqL]; try rfl
    · rw [if_neg hqL]; try rfl
  · rw [if_neg hqp]
    by_cases hqL : q ∈ usingAt g p
    · rw [if_pos hqL]; try rfl
    · rw [if_neg hqL]; try rfl

theorem unhook_cell_back (g : Sheet) (p q : Position) (cq' : Cell)
    (h : cellAt (unhookStage g p) q = some cq') : ∃ cq, cellAt g q = some cq := by
  cases hx : cellAt g q with
  | none => rw [unhook_cell_none g p q hx] at h; exact Option.noConfusion h
  | some cq => exact ⟨cq, rfl⟩

theorem ginv_unhook (g : Sheet) (p : Position) (h : GInv g) : GInv (unhookStage g p) := by
  obtain ⟨hsym, hgh, hns, htx⟩ := h
  refine ⟨?_, ?_, ?_, ?_⟩
  · intro a b ca' cb' ha' hb'
    obtain ⟨ca, ha⟩ := unhook_cell_back g p a ca' ha'
    obtain ⟨cb, hb⟩ := unhook_cell_back g p b cb' hb'
    obtain ⟨ca2, ha2, -, hau, hac⟩ := unhook_cell_fields g p a ca ha
    obtain ⟨cb2, hb2, -, hbu, hbc⟩ := unhook_cell_fields g p b cb hb
    rw [ha'] at ha2
    rw [hb'] at hb2
    cases ha2
    cases hb2
    rw [hau, hbc]
    by_cases hap : a = p
    · rw [if_pos hap]
      simp only [List.not_mem_nil, false_iff]
      by_cases hbL : b ∈ usingAt g p
      · rw [if_pos hbL, mem_filter_ne]
        rintro ⟨-, hne⟩
        exact hne hap
      · rw [if_neg hbL]
        intro hmem
        have hbu2 : b ∈ ca.usingCells := (hsym a b ca cb ha hb).2 hmem
        have hla : usingAt g p = ca.usingCells := by
          unfold usingAt
          rw [← hap, ha]
        exact hbL (hla.symm ▸ hbu2)
    · rw [if_neg hap]
      by_cases hbL : b ∈ usingAt g p
      · rw [if_pos hbL, mem_filter_ne]
        rw [hsym a b ca cb ha hb]
        constructor
        · intro hmem
          exact ⟨hmem, hap⟩
        · intro hmem
          exact hmem.1
      · rw [if_neg hbL]
        exact hsym a b ca cb ha hb
  · intro a ca' ha'
    obtain ⟨ca, ha⟩ := unhook_cell_back g p a ca' ha'
    obtain ⟨ca2, ha2, -, hau, hac⟩ := unhook_cell_fields g p a ca ha
    rw [ha'] at ha2
    cases ha2
    obtain ⟨h1, h2⟩ := hgh a ca ha
    constructor
    · intro b hb
      rw [hau] at hb
      have hbo : b ∈ ca.usingCells := by
        by_cases hap : a = p
        · rw [if_pos hap] at hb
          exact absurd hb (List.not_mem_nil b)
        · rw [if_neg hap] at hb
          exact hb
      have hex := h1 b hbo
      cases hx : cellAt g b with
      | none => rw [hx] at hex; exact absurd hex (by simp)
      | some cb =>
        obtain ⟨cb2, hb2, -, -, -⟩ := unhook_cell_fields g p b cb hx
        rw [hb2]
        rfl
    · intro b hb
      rw [hac] at hb
      have hbo : b ∈ ca.calculatedCells := by
        by_cases haL : a ∈ usingAt g p
        · rw [if_pos haL] at hb
          exact ((mem_filter_ne b p ca.calculatedCells).1 hb).1
        · rw [if_neg haL] at hb
          exact hb
      have hex := h2 b hbo
      cases hx : cellAt g b with
      | none => rw [hx] at hex; exact absurd hex (by simp)
      | some cb =>
        obtain ⟨cb2, hb2, -, -, -⟩ := unhook_cell_fields g p b cb hx
        rw [hb2]
        rfl
  · intro a ca' ha'
    obtain ⟨ca, ha⟩ := unhook_cell_back g p a ca' ha'
    obtain ⟨ca2, ha2, -, hau, hac⟩ := unhook_cell_fields g p a ca ha
    rw [ha'] at ha2
    cases ha2
    obtain ⟨h1, h2⟩ := hns a ca ha
    constructor
    · rw [hau]
      by_cases hap : a = p
      · rw [if_pos hap]
        exact List.not_mem_nil a
      · rw [if_neg hap]
        exact h1
    · rw [hac]
      by_cases haL : a ∈ usingAt g p
      · rw [if_pos haL]
        intro hmem
        exact h2 ((mem_filter_ne a p ca.calculatedCells).1 hmem).1
      · rw [if_neg haL]
        exact h2
  · intro a ca' s ha' hs
    obtain ⟨ca, ha⟩ := unhook_cell_back g p a ca' ha'
    obtain ⟨ca2, ha2, hai, -, -⟩ := unhook_cell_fields g p a ca ha
    rw [ha'] at ha2
    cases ha2
    rw [hai] at hs
    exact htx a ca s ha hs

theorem mem_insertUnique (x y : Position) (l : List Position) :
    x ∈ insertUnique y l ↔ (x = y ∨ x ∈ l) := by
  unfold insertUnique
  by_cases hy : y ∈ l
  · rw [if_pos hy]
    constructor
    · exact Or.inr
    · rintro (rfl | hx)
      · exact hy
      · exact hx
  · rw [if_neg hy]
    exact List.mem_cons

theorem foldl_preserve_mem {α : Type} (P : Sheet → Prop) (f : Sheet → α → Sheet) :
    ∀ (l : List α), (∀ g x, x ∈ l → P g → P (f g x)) →
      ∀ g : Sheet, P g → P (l.foldl f g) := by
  intro l
  induction l with
  | nil => exact fun _ g hg => hg
  | cons x rest ih =>
    intro hstep g hg
    exact ih (fun g' y hy hg' => hstep g' y (List.mem_cons_of_mem x hy) hg') (f g x)
      (hstep g x (List.mem_cons_self x rest) hg)

theorem ginv_rehookStep (acc : Sheet) (p q : Position) (hq : q.IsValid) (hpq : q ≠ p)
    (hpex : (cellAt acc p).isSome) (h : GInv acc) : GInv (rehookStep p acc q) := by
  obtain ⟨hsym, hgh, hns, htx⟩ := h
  obtain ⟨cp, hcp⟩ : ∃ cp, cellAt acc p = some cp := by
    cases hx : cellAt acc p with
    | none => rw [hx] at hpex; exact absurd hpex (by simp)
    | some c => exact ⟨c, rfl⟩
  have hchar := fun r => rehookStep_cellAt p acc q r hq hpq
  have hcharP : cellAt (rehookStep p acc q) p =
      some { cp with usingCells := insertUnique q cp.usingCells } := by
    rw [hchar p, if_pos rfl, hcp]
    rfl
  have hcharQ : cellAt (rehookStep p acc q) q =
      some { (cellAt acc q).getD freshCell with
             calculatedCells := insertUnique p (((cellAt acc q).getD freshCell).calculatedCells) } := by
    rw [hchar q, if_neg hpq, if_pos rfl]
  have hcharO : ∀ r, r ≠ p → r ≠ q → cellAt (rehookStep p acc q) r = cellAt acc r := by
    intro r h1 h2
    rw [hchar r, if_neg h1, if_neg h2]
  have hqcases : cellAt acc q = some ((cellAt acc q).getD freshCell) ∨
      (cellAt acc q = none ∧ (cellAt acc q).getD freshCell = freshCell) := by
    cases hx : cellAt acc q with
    | none => exact Or.inr ⟨rfl, rfl⟩
    | some c => exact Or.inl rfl
  set bq := (cellAt acc q).getD freshCell with hbq
  refine ⟨?_, ?_, ?_, ?_⟩
  · intro a b ca' cb' ha' hb'
    by_cases hap : a = p
    · rw [hap] at ha' ⊢
      rw [hcharP] at ha'
      cases ha'
      by_cases hbp : b = p
      · rw [hbp] at hb' ⊢
        rw [hcharP] at hb'
        cases hb'
        simp only [mem_insertUnique]
        constructor
        · rintro (rfl | hmem)
          · exact absurd rfl hpq
          · exact (hsym p p cp cp hcp hcp).1 hmem
        · intro hmem
          exact Or.inr ((hsym p p cp cp hcp hcp).2 hmem)
      · by_cases hbQ : b = q
        · rw [hbQ] at hb' ⊢
          rw [hcharQ] at hb'
          cases hb'
          simp only [mem_insertUnique]
          constructor
          · intro _
            exact Or.inl trivial
          · intro _
            exact Or.inl trivial
        · rw [hcharO b hbp hbQ] at hb'
          simp only [mem_insertUnique]
          constructor
          · rintro (rfl | hmem)
            · exact absurd rfl hbQ
            · exact (hsym p b cp cb' hcp hb').1 hmem
          · intro hmem
            exact Or.inr ((hsym p b cp cb' hcp hb').2 hmem)
    · by_cases haQ : a = q
      · rw [haQ] at ha' ⊢
        rw [hcharQ] at ha'
        cases ha'
        rcases hqcases with hreal | ⟨hnone, hfresh⟩
        · by_cases hbp : b = p
          · rw [hbp] at hb' ⊢
            rw [hcharP] at hb'
            cases hb'
            simp only [mem_insertUnique]
            exact hsym q p bq cp hreal hcp
          · by_cases hbQ : b = q
            · rw [hbQ] at hb' ⊢
              rw [hcharQ] at hb'
              cases hb'
              simp only [mem_insertUnique]
              constructor
              · intro hmem
                exact Or.inr ((hsym q q bq bq hreal hreal).1 hmem)
              · rintro (rfl | hmem)
                · exact absurd rfl (fun hh => hpq hh.symm)
                · exact (hsym q q bq bq hreal hreal).2 hmem
            · rw [hcharO b hbp hbQ] at hb'
              exact hsym q b bq cb' hreal hb'
        · rw [hfresh]
          simp only [freshCell, List.not_mem_nil, false_iff]
          by_cases hbp : b = p
          · rw [hbp] at hb'
            rw [hcharP] at hb'
            cases hb'
            intro hmem
            have hex := (hgh p cp hcp).2 q hmem
            rw [hnone] at hex
            exact absurd hex (by simp)
          · by_cases hbQ : b = q
            · rw [hbQ] at hb'
              rw [hcharQ] at hb'
              cases hb'
              rw [hfresh]
              simp only [mem_insertUnique, freshCell, List.not_mem_nil, or_false]
              intro hmem
              exact hpq hmem
            · rw [hcharO b hbp hbQ] at hb'
              intro hmem
              have hex := (hgh b cb' hb').2 q hmem
              rw [hnone] at hex
              exact absurd hex (by simp)
      · rw [hcharO a hap haQ] at ha'
        by_cases hbp : b = p
        · rw [hbp] at hb' ⊢
          rw [hcharP] at hb'
          cases hb'
          exact hsym a p ca' cp ha' hcp
        · by_cases hbQ : b = q
          · rw [hbQ] at hb' ⊢
            rw [hcharQ] at hb'
            cases hb'
            simp only [mem_insertUnique]
            rcases hqcases with hreal | ⟨hnone, hfresh⟩
            · constructor
              · intro hmem
                exact Or.inr ((hsym a q ca' bq ha' hreal).1 hmem)
              · rintro (rfl | hmem)
                · exact absurd rfl hap
                · exact (hsym a q ca' bq ha' hreal).2 hmem
            · rw [hfresh]
              simp only [freshCell, List.not_mem_nil, or_false]
              constructor
              · intro hmem
                have hex := (hgh a ca' ha').1 q hmem
                rw [hnone] at hex
                exact absurd hex (by simp)
              · intro hmem
                exact absurd hmem hap
          · rw [hcharO b hbp hbQ] at hb'
            exact hsym a b ca' cb' ha' hb'
  · intro a ca' ha'
    by_cases hap : a = p
    · rw [hap] at ha'
      rw [hcharP] at ha'
      cases ha'
      constructor
      · intro b hb
        simp only [mem_insertUnique] at hb
        rcases hb with rfl | hb
        · rw [hcharQ]; rfl
        · have hex := (hgh p cp hcp).1 b hb
          by_cases hbp : b = p
          · rw [hbp, hcharP]; rfl
          · by_cases hbQ : b = q
            · rw [hbQ, hcharQ]; rfl
            · rw [hcharO b hbp hbQ]; exact hex
      · intro b hb
        have hex := (hgh p cp hcp).2 b hb
        by_cases hbp : b = p
        · rw [hbp, hcharP]; rfl
        · by_cases hbQ : b = q
          · rw [hbQ, hcharQ]; rfl
          · rw [hcharO b hbp hbQ]; exact hex
    · by_cases haQ : a = q
      · rw [haQ] at ha'
        rw [hcharQ] at ha'
        cases ha'
        rcases hqcases with hreal | ⟨hnone, hfresh⟩
        · constructor
          · intro b hb
            have hex := (hgh q bq hreal).1 b hb
            by_cases hbp : b = p
            · rw [hbp, hcharP]; rfl
            · by_cases hbQ : b = q
              · rw [hbQ, hcharQ]; rfl
              · rw [hcharO b hbp hbQ]; exact hex
          · intro b hb
            simp only [mem_insertUnique] at hb
            rcases hb with rfl | hb
            · rw [hcharP]; rfl
            · have hex := (hgh q bq hreal).2 b hb
              by_cases hbp : b = p
              · rw [hbp, hcharP]; rfl
              · by_cases hbQ : b = q
                · rw [hbQ, hcharQ]; rfl
                · rw [hcharO b hbp hbQ]; exact hex
        · constructor
          · intro b hb
            rw [hfresh] at hb
            exact absurd hb (by simp [freshCell])
          · intro b hb
            simp only [mem_insertUnique] at hb
            rcases hb with rfl | hb
            · rw [hcharP]; rfl
            · rw [hfresh] at hb
              exact absurd hb (by simp [freshCell])
      · rw [hcharO a hap haQ] at ha'
        obtain ⟨h1, h2⟩ := hgh a ca' ha'
        constructor
        · intro b hb
          have hex := h1 b hb
          by_cases hbp : b = p
          · rw [hbp, hcharP]; rfl
          · by_cases hbQ : b = q
            · rw [hbQ, hcharQ]; rfl
            · rw [hcharO b hbp hbQ]; exact hex
        · intro b hb
          have hex := h2 b hb
          by_cases hbp : b = p
          · rw [hbp, hcharP]; rfl
          · by_cases hbQ : b = q
            · rw [hbQ, hcharQ]; rfl
            · rw [hcharO b hbp hbQ]; exact hex
  · intro a ca' ha'
    by_cases hap : a = p
    · rw [hap] at ha' ⊢
      rw [hcharP] at ha'
      cases ha'
      obtain ⟨h1, h2⟩ := hns p cp hcp
      constructor
      · simp only [mem_insertUnique]
        rintro (rfl | hmem)
        · exact hpq rfl
        · exact h1 hmem
      · exact h2
    · by_cases haQ : a = q
      · rw [haQ] at ha' ⊢
        rw [hcharQ] at ha'
        cases ha'
        rcases hqcases with hreal | ⟨hnone, hfresh⟩
        · obtain ⟨h1, h2⟩ := hns q bq hreal
          constructor
          · exact h1
          · simp only [mem_insertUnique]
            rintro (rfl | hmem)
            · exact hpq rfl
            · exact h2 hmem
        · constructor
          · rw [hfresh]
            simp [freshCell]
          · simp only [mem_insertUnique]
            rw [hfresh]
            simp only [freshCell, List.not_mem_nil, or_false]
            intro hmem
            exact hpq hmem
      · rw [hcharO a hap haQ] at ha'
        exact hns a ca' ha'
  · intro a ca' s ha' hs
    by_cases hap : a = p
    · rw [hap] at ha'
      rw [hcharP] at ha'
      cases ha'
      exact htx p cp s hcp hs
    · by_cases haQ : a = q
      · rw [haQ] at ha'
        rw [hcharQ] at ha'
        cases ha'
        rcases hqcases with hreal | ⟨hnone, hfresh⟩
        · exact htx q bq s hreal hs
        · rw [hfresh] at hs
          exact absurd hs (by simp [freshCell])
      · rw [hcharO a hap haQ] at ha'
        exact htx a ca' s ha' hs

theorem cellAt_nil (r : Position) : cellAt ([] : Sheet) r = none := by
  unfold cellAt slotAt
  by_cases hr : r.IsValid <;> simp [hr]

theorem ginv_ext (g1 g2 : Sheet) (h : ∀ r, cellAt g1 r = cellAt g2 r) (hg : GInv g2) :
    GInv g1 := by
  obtain ⟨hsym, hgh, hns, htx⟩ := hg
  refine ⟨?_, ?_, ?_, ?_⟩
  · intro a b ca cb ha hb
    rw [h a] at ha
    rw [h b] at hb
    exact hsym a b ca cb ha hb
  · intro a ca ha
    rw [h a] at ha
    obtain ⟨h1, h2⟩ := hgh a ca ha
    exact ⟨fun b hb => by rw [h b]; exact h1 b hb, fun b hb => by rw [h b]; exact h2 b hb⟩
  · intro a ca ha
    rw [h a] at ha
    exact hns a ca ha
  · intro a ca s ha hs
    rw [h a] at ha
    exact htx a ca s ha hs

theorem ginv_empty : GInv ([] : Sheet) := by
  refine ⟨?_, ?_, ?_, ?_⟩
  · intro a b ca cb ha
    rw [cellAt_nil] at ha
    exact absurd ha (by simp)
  · intro a ca ha
    rw [cellAt_nil] at ha
    exact absurd ha (by simp)
  · intro a ca ha
    rw [cellAt_nil] at ha
    exact absurd ha (by simp)
  · intro a ca s ha
    rw [cellAt_nil] at ha
    exact absurd ha (by simp)

theorem ensure_eq_of_some (g : Sheet) (p : Position) (c : Cell)
    (hc : cellAt g p = some c) (r : Position) : cellAt (ensureCell g p) r = cellAt g r := by
  by_cases hr : r = p
  · rw [hr, hc, cellAt_ensure_preserves g p p c hc]
  · exact cellAt_ensure_ne g p r hr

theorem ensure_cellAt_none (g : Sheet) (p : Position) (hp : p.IsValid)
    (hnone : cellAt g p = none) (r : Position) :
    cellAt (ensureCell g p) r = if r = p then some freshCell else cellAt g r := by
  by_cases hr : r = p
  · rw [hr, if_pos rfl]
    exact cellAt_ensure_absent g p hp hnone
  · rw [if_neg hr]
    exact cellAt_ensure_ne g p r hr

theorem ensure_self_isSome (g : Sheet) (p : Position) (hp : p.IsValid) :
    (cellAt (ensureCell g p) p).isSome := by
  cases hc : cellAt g p with
  | some c =>
    rw [cellAt_ensure_preserves g p p c hc]
    rfl
  | none =>
    rw [cellAt_ensure_absent g p hp hc]
    rfl

theorem matStage_isSome (g : Sheet) (refs : List Position) (r : Position)
    (h : (cellAt g r).isSome) : (cellAt (matStage g refs) r).isSome := by
  cases hc : cellAt g r with
  | none => rw [hc] at h; exact absurd h (by simp)
  | some c => rw [matFold_preserves refs g r c hc]; rfl

theorem ccLoop_false_not_mem (g : Sheet) (p : Position) :
    ∀ (l vis : List Position), ccLoop g p l vis = false → ∀ q ∈ l, q ≠ p := by
  intro l
  induction l with
  | nil =>
    intro vis hcc q hq
    exact absurd hq (List.not_mem_nil q)
  | cons x rest ih =>
    intro vis hcc q hq
    by_cases hx : x = p
    · rw [ccLoop, if_pos hx] at hcc
      exact absurd hcc (by simp)
    · rw [ccLoop, if_neg hx] at hcc
      rcases List.mem_cons.mp hq with rfl | hq2
      · exact hx
      · dsimp only at hcc
        rcases hres : hasCircFrom g p (totalSlots g + 1)
            (if x ∈ vis then vis else x :: vis) x with ⟨b, v⟩
        rw [hres] at hcc
        cases b with
        | true => exact absurd hcc (by simp)
        | false =>
          dsimp only at hcc
          exact ih v hcc q hq2

theorem checkCirc_false_ne (g : Sheet) (p : Position) (refs : List Position)
    (hcc : CheckCircularDependencies g p refs = false) : ∀ q ∈ refs, q ≠ p := by
  unfold CheckCircularDependencies at hcc
  exact ccLoop_false_not_mem g p refs [] hcc

theorem mem_refcells_valid (e : Expr) (p : Position) (h : p ∈ GetReferencedCells e) :
    p.IsValid := by
  unfold GetReferencedCells at h
  rcases (refCells_fold_mem e.positions [] p).1 h with h1 | h2
  · exact absurd h1 (List.not_mem_nil p)
  · exact h2.2

theorem ginv_rehookStage (g : Sheet) (p : Position) (refs : List Position)
    (href : ∀ x ∈ refs, x.IsValid ∧ x ≠ p)
    (hpex : (cellAt g p).isSome) (h : GInv g) :
    GInv (rehookStage g p refs) := by
  unfold rehookStage
  exact (foldl_preserve_mem (fun s => (cellAt s p).isSome ∧ GInv s) (rehookStep p) refs
    (fun s x hx hs => ⟨rehookStep_isSome p s x p hs.1,
      ginv_rehookStep s p x (href x hx).1 (href x hx).2 hs.1 hs.2⟩) g ⟨hpex, h⟩).2

theorem strip_eq_isSome (o1 o2 : Option Cell)
    (h : o1.map (fun c => { c with impl := c.impl.resetCache }) =
      o2.map (fun c => { c with impl := c.impl.resetCache })) :
    o1.isSome = o2.isSome := by
  cases o1 with
  | none =>
    cases o2 with
    | none => rfl
    | some c2 => exact absurd h (by simp)
  | some c1 =>
    cases o2 with
    | none => exact absurd h (by simp)
    | some c2 => rfl

theorem resetCache_variant (i : CellImpl) : ∀ s, i.resetCache = .text s → i = .text s := by
  intro s hs
  cases i with
  | empty => exact absurd hs (by simp [CellImpl.resetCache])
  | text t =>
    simp only [CellImpl.resetCache, CellImpl.text.injEq] at hs
    rw [hs]
  | formula e c => exact absurd hs (by simp [CellImpl.resetCache])

theorem ginv_resetCache (f : Nat) (g : Sheet) (p : Position) (force : Bool) (h : GInv g) :
    GInv (ResetCache f g p force) := by
  exact ginv_of_strip g _ (fun q => resetCacheF_strip f g p force q) h

theorem resetCache_isSome (f : Nat) (g : Sheet) (p : Position) (force : Bool) (r : Position)
    (h : (cellAt g r).isSome) : (cellAt (ResetCache f g p force) r).isSome := by
  rw [strip_eq_isSome _ _ (resetCacheF_strip f g p force r)]
  exact h

theorem ginv_cellSetCommit (g : Sheet) (p : Position) (impl : CellImpl)
    (himpl : ∀ s, impl = .text s → s ≠ "")
    (hrefs : ∀ x ∈ impl.referencedCells, x.IsValid)
    (hpex : (cellAt g p).isSome) (h : GInv g) :
    GInv (cellSetCommit g p impl).2 := by
  rw [cellSetCommit]
  cases hchk : CheckCircularDependencies g p impl.referencedCells with
  | true =>
    simp only [hchk, if_true]
    exact h
  | false =>
    simp only [hchk, Bool.false_eq_true, if_false]
    have h1 : GInv (implSwap g p impl) := ginv_implSwap g p impl himpl h
    have h2 : GInv (unhookStage (implSwap g p impl) p) := ginv_unhook _ p h1
    have hp2 : (cellAt (unhookStage (implSwap g p impl) p) p).isSome :=
      unhookStage_isSome _ _ _ (updateCell_isSome _ _ _ _ hpex)
    have hne := checkCirc_false_ne g p impl.referencedCells hchk
    have h3 := ginv_rehookStage _ p impl.referencedCells
      (fun x hx => ⟨hrefs x hx, hne x hx⟩) hp2 h2
    exact ginv_resetCache _ _ p true h3

theorem cellSetCommit_isSome (g : Sheet) (p : Position) (impl : CellImpl) (r : Position)
    (h : (cellAt g r).isSome) : (cellAt (cellSetCommit g p impl).2 r).isSome := by
  rw [cellSetCommit]
  cases hchk : CheckCircularDependencies g p impl.referencedCells with
  | true =>
    simp only [hchk, if_true]
    exact h
  | false =>
    simp only [hchk, Bool.false_eq_true, if_false]
    exact resetCache_isSome _ _ p true r
      (rehookStage_isSome _ _ _ _ (unhookStage_isSome _ _ _ (updateCell_isSome _ _ _ _ h)))

theorem ginv_CellSet (g : Sheet) (p : Position) (t : String)
    (hpex : (cellAt g p).isSome) (h : GInv g) : GInv (CellSet g p t).2 := by
  rw [CellSet]
  by_cases ht : t = ""
  · rw [if_pos ht]
    exact ginv_cellSetCommit g p .empty (fun s hs => absurd hs (by simp))
      (fun x hx => absurd hx (by simp [CellImpl.referencedCells])) hpex h
  · rw [if_neg ht]
    by_cases hf : 2 ≤ t.length ∧ t.front = FORMULA_SIGN
    · rw [if_pos hf]
      cases hp : parseFormula (t.drop 1) with
      | none => exact h
      | some e =>
        dsimp only
        have hm := ginv_matStage g (GetReferencedCells e) h
        have hms : (cellAt (matStage g (GetReferencedCells e)) p).isSome :=
          matStage_isSome _ _ p hpex
        apply ginv_cellSetCommit _ p (.formula e none) (fun s hs => absurd hs (by simp))
          ?_ hms hm
        intro x hx
        simp only [CellImpl.referencedCells] at hx
        exact mem_refcells_valid e x hx
    · rw [if_neg hf]
      apply ginv_cellSetCommit g p (.text t) ?_
        (fun x hx => absurd hx (by simp [CellImpl.referencedCells])) hpex h
      intro s hs
      injection hs with h1
      rw [← h1]
      exact ht

theorem CellSet_isSome (g : Sheet) (p : Position) (t : String) (r : Position)
    (h : (cellAt g r).isSome) : (cellAt (CellSet g p t).2 r).isSome := by
  rw [CellSet]
  by_cases ht : t = ""
  · rw [if_pos ht]
    exact cellSetCommit_isSome g p .empty r h
  · rw [if_neg ht]
    by_cases hf : 2 ≤ t.length ∧ t.front = FORMULA_SIGN
    · rw [if_pos hf]
      cases hp : parseFormula (t.drop 1) with
      | none => exact h
      | some e =>
        dsimp only
        exact cellSetCommit_isSome _ p (.formula e none) r (matStage_isSome _ _ r h)
    · rw [if_neg hf]
      exact cellSetCommit_isSome g p (.text t) r h

theorem SetCell_eq_ensure (g : Sheet) (p : Position) (t : String) (hp : p.IsValid) :
    SetCell g p t = CellSet (ensureCell g p) p t := by
  rw [SetCell, if_pos hp]
  rfl

theorem ginv_SetCell (g : Sheet) (p : Position) (t : String) (h : GInv g) :
    GInv (SetCell g p t).2 := by
  by_cases hp : p.IsValid
  · rw [SetCell_eq_ensure g p t hp]
    exact ginv_CellSet _ p t (ensure_self_isSome g p hp) (ginv_ensure g p hp h)
  · rw [SetCell, if_neg hp]
    exact h

theorem SetCell_isSome (g : Sheet) (p : Position) (t : String) (r : Position)
    (h : (cellAt g r).isSome) : (cellAt (SetCell g p t).2 r).isSome := by
  by_cases hp : p.IsValid
  · rw [SetCell_eq_ensure g p t hp]
    exact CellSet_isSome _ p t r (ensure_isSome g p r h)
  · rw [SetCell, if_neg hp]
    exact h

theorem setCacheAt_strip (g : Sheet) (p : Position) (v : Option FValue) (q : Position) :
    (cellAt (setCacheAt g p v) q).map (fun c => { c with impl := c.impl.resetCache }) =
      (cellAt g q).map (fun c => { c with impl := c.impl.resetCache }) := by
  by_cases hq : q = p
  · rw [hq, setCacheAt, cellAt_updateCell_self]
    cases hc : cellAt g p with
    | none => rfl
    | some c =>
      rcases c with ⟨ci, cu, cc⟩
      cases ci <;> rfl
  · rw [setCacheAt, cellAt_updateCell_ne _ _ _ _ hq]

theorem evalE_strip (look : Sheet → Position → Except FormulaError Rat × Sheet)
    (hlook : ∀ g p q, (cellAt (look g p).2 q).map (fun c => { c with impl := c.impl.resetCache }) =
      (cellAt g q).map (fun c => { c with impl := c.impl.resetCache })) :
    ∀ (e : Expr) (g : Sheet) (q : Position),
      (cellAt (evalE look g e).2 q).map (fun c => { c with impl := c.impl.resetCache }) =
        (cellAt g q).map (fun c => { c with impl := c.impl.resetCache }) := by
  intro e
  induction e with
  | num d => intro g q; rfl
  | ref p => intro g q; exact hlook g p q
  | add l r ihl ihr =>
    intro g q
    rw [evalE]
    rcases hl : evalE look g l with ⟨rl, g1⟩
    have h1 := ihl g q
    rw [hl] at h1
    cases rl with
    | error er => exact h1
    | ok a =>
      dsimp only
      rcases hr : evalE look g1 r with ⟨rr, g2⟩
      have h2 := ihr g1 q
      rw [hr] at h2
      cases rr with
      | error er => exact h2.trans h1
      | ok b => exact h2.trans h1
  | sub l r ihl ihr =>
    intro g q
    rw [evalE]
    rcases hl : evalE look g l with ⟨rl, g1⟩
    have h1 := ihl g q
    rw [hl] at h1
    cases rl with
    | error er => exact h1
    | ok a =>
      dsimp only
      rcases hr : evalE look g1 r with ⟨rr, g2⟩
      have h2 := ihr g1 q
      rw [hr] at h2
      cases rr with
      | error er => exact h2.trans h1
      | ok b => exact h2.trans h1
  | mul l r ihl ihr =>
    intro g q
    rw [evalE]
    rcases hl : evalE look g l with ⟨rl, g1⟩
    have h1 := ihl g q
    rw [hl] at h1
    cases rl with
    | error er => exact h1
    | ok a =>
      dsimp only
      rcases hr : evalE look g1 r with ⟨rr, g2⟩
      have h2 := ihr g1 q
      rw [hr] at h2
      cases rr with
      | error er => exact h2.trans h1
      | ok b => exact h2.trans h1
  | div l r ihl ihr =>
    intro g q
    rw [evalE]
    rcases hl : evalE look g l with ⟨rl, g1⟩
    have h1 := ihl g q
    rw [hl] at h1
    cases rl with
    | error er => exact h1
    | ok a =>
      dsimp only
      rcases hr : evalE look g1 r with ⟨rr, g2⟩
      have h2 := ihr g1 q
      rw [hr] at h2
      cases rr with
      | error er => exact h2.trans h1
      | ok b =>
        dsimp only
        by_cases hb : b = 0
        · rw [if_pos hb]
          exact h2.trans h1
        · rw [if_neg hb]
          exact h2.trans h1
  | neg e ih =>
    intro g q
    rw [evalE]
    rcases he : evalE look g e with ⟨re, g1⟩
    have h1 := ih g q
    rw [he] at h1
    cases re with
    | error er => exact h1
    | ok a => exact h1

theorem lookupF_strip (pn : String → Option Rat)
    (getv : Sheet → Position → CellValue × Sheet)
    (hgetv : ∀ g p q,
      (cellAt (getv g p).2 q).map (fun c => { c with impl := c.impl.resetCache }) =
        (cellAt g q).map (fun c => { c with impl := c.impl.resetCache })) :
    ∀ g p q,
      (cellAt (lookupF pn getv g p).2 q).map (fun c => { c with impl := c.impl.resetCache }) =
        (cellAt g q).map (fun c => { c with impl := c.impl.resetCache }) := by
  intro g p q
  unfold lookupF
  by_cases hp : p.IsValid
  · rw [if_pos hp]
    cases hgc : GetCellConstOpt g p with
    | none => rfl
    | some c =>
      dsimp only
      exact hgetv g p q
  · rw [if_neg hp]

theorem FormulaEvaluate_strip (look : Sheet → Position → Except FormulaError Rat × Sheet)
    (hlook : ∀ g p q, (cellAt (look g p).2 q).map (fun c => { c with impl := c.impl.resetCache }) =
      (cellAt g q).map (fun c => { c with impl := c.impl.resetCache }))
    (g : Sheet) (e : Expr) (q : Position) :
    (cellAt (FormulaEvaluate look g e).2 q).map (fun c => { c with impl := c.impl.resetCache }) =
      (cellAt g q).map (fun c => { c with impl := c.impl.resetCache }) := by
  unfold FormulaEvaluate
  rcases he : evalE look g e with ⟨r, g1⟩
  have h1 := evalE_strip look hlook e g q
  rw [he] at h1
  cases r with
  | error er => exact h1
  | ok d => exact h1

theorem getValueF_strip (pn : String → Option Rat) :
    ∀ (f : Nat) (g : Sheet) (p : Position) (q : Position),
      (cellAt ((GetValueF pn f g p).2) q).map (fun c => { c with impl := c.impl.resetCache }) =
        (cellAt g q).map (fun c => { c with impl := c.impl.resetCache }) := by
  intro f
  induction f with
  | zero => intro g p q; rfl
  | succ f ih =>
    intro g p q
    rw [GetValueF]
    cases hc : cellAt g p with
    | none => rfl
    | some c =>
      dsimp only
      cases him : c.impl with
      | empty => rfl
      | text s =>
        dsimp only
        by_cases hs : s = ""
        · rw [if_pos hs]
        · rw [if_neg hs]
          by_cases hesc : s.front = ESCAPE_SIGN
          · rw [if_pos hesc]
          · rw [if_neg hesc]
      | formula e cache =>
        cases cache with
        | some v => rfl
        | none =>
          dsimp only
          rcases hvg : FormulaEvaluate (lookupF pn (GetValueF pn f)) g e with ⟨v1, g1⟩
          have h1 := FormulaEvaluate_strip (lookupF pn (GetValueF pn f))
            (lookupF_strip pn (GetValueF pn f) (fun g p q => ih g p q)) g e q
          rw [hvg] at h1
          exact (setCacheAt_strip g1 p (some v1) q).trans h1

theorem cellAt_some_valid (g : Sheet) (p : Position) (c : Cell)
    (h : cellAt g p = some c) : p.IsValid := by
  by_cases hp : p.IsValid
  · exact hp
  · rw [cellAt_invalid g p hp] at h
    exact absurd h (by simp)

theorem cellAt_some_slot (g : Sheet) (p : Position) (c : Cell)
    (h : cellAt g p = some c) : slotAt g p = some (some c) := by
  have hp := cellAt_some_valid g p c h
  rw [cellAt, if_pos hp] at h
  cases hs : slotAt g p with
  | none => rw [hs] at h; exact absurd h (by simp)
  | some o =>
    cases o with
    | none => rw [hs] at h; exact absurd h (by simp)
    | some c0 =>
      rw [hs] at h
      dsimp only at h
      cases h
      rfl

theorem cellAt_of_slot (g : Sheet) (p : Position) (c : Cell) (hp : p.IsValid)
    (hslot : slotAt g p = some (some c)) : cellAt g p = some c := by
  rw [cellAt, if_pos hp, hslot]

theorem cellAt_setSlot_none_self (g : Sheet) (p : Position) (c : Cell)
    (hc : cellAt g p = some c) : cellAt (setSlot g p none) p = none := by
  have hp := cellAt_some_valid g p c hc
  have hs := cellAt_some_slot g p c hc
  have hres := cellAt_setSlot_self g p none hp (by rw [hs]; rfl)
  simpa using hres

theorem ginv_remove (g : Sheet) (p : Position) (cp : Cell)
    (hcp : cellAt g p = some cp) (hcalc : cp.calculatedCells = [])
    (huse : cp.usingCells = []) (h : GInv g) : GInv (setSlot g p none) := by
  obtain ⟨hsym, hgh, hns, htx⟩ := h
  have hchar : ∀ r, cellAt (setSlot g p none) r = if r = p then none else cellAt g r := by
    intro r
    by_cases hr : r = p
    · rw [if_pos hr, hr]
      exact cellAt_setSlot_none_self g p cp hcp
    · rw [if_neg hr]
      exact cellAt_setSlot_ne g p none r hr
  refine ⟨?_, ?_, ?_, ?_⟩
  · intro a b ca cb ha hb
    rw [hchar a] at ha
    rw [hchar b] at hb
    by_cases hap : a = p
    · rw [if_pos hap] at ha
      exact absurd ha (by simp)
    · rw [if_neg hap] at ha
      by_cases hbp : b = p
      · rw [if_pos hbp] at hb
        exact absurd hb (by simp)
      · rw [if_neg hbp] at hb
        exact hsym a b ca cb ha hb
  · intro a ca ha
    rw [hchar a] at ha
    by_cases hap : a = p
    · rw [if_pos hap] at ha
      exact absurd ha (by simp)
    · rw [if_neg hap] at ha
      obtain ⟨h1, h2⟩ := hgh a ca ha
      constructor
      · intro b hb
        rw [hchar b]
        by_cases hbp : b = p
        · exfalso
          have hmem : a ∈ cp.calculatedCells := (hsym a p ca cp ha hcp).1 (hbp ▸ hb)
          rw [hcalc] at hmem
          exact absurd hmem (List.not_mem_nil a)
        · rw [if_neg hbp]
          exact h1 b hb
      · intro b hb
        rw [hchar b]
        by_cases hbp : b = p
        · exfalso
          have hmem : a ∈ cp.usingCells := (hsym p a cp ca hcp ha).2 (hbp ▸ hb)
          rw [huse] at hmem
          exact absurd hmem (List.not_mem_nil a)
        · rw [if_neg hbp]
          exact h2 b hb
  · intro a ca ha
    rw [hchar a] at ha
    by_cases hap : a = p
    · rw [if_pos hap] at ha
      exact absurd ha (by simp)
    · rw [if_neg hap] at ha
      exact hns a ca ha
  · intro a ca s ha hs
    rw [hchar a] at ha
    by_cases hap : a = p
    · rw [if_pos hap] at ha
      exact absurd ha (by simp)
    · rw [if_neg hap] at ha
      exact htx a ca s ha hs

theorem clearSet_eq (g : Sheet) (p : Position) :
    (CellSet g p "").2 =
      ResetCache (totalSlots (unhookStage (implSwap g p .empty) p) + 1)
        (unhookStage (implSwap g p .empty) p) p true := by
  rw [CellSet, if_pos rfl, cellSetCommit]
  have hck : CheckCircularDependencies g p CellImpl.empty.referencedCells = false := rfl
  rw [hck]
  simp only [Bool.false_eq_true, if_false]
  rfl

theorem clearSet_fields (g : Sheet) (p : Position) (c : Cell)
    (hns : p ∉ c.usingCells) (hc : cellAt g p = some c) :
    ∃ c2, cellAt (CellSet g p "").2 p = some c2 ∧ c2.usingCells = [] ∧
      c2.calculatedCells = c.calculatedCells := by
  rw [clearSet_eq]
  have hswap : cellAt (implSwap g p .empty) p = some { c with impl := .empty } := by
    rw [implSwap, cellAt_updateCell_self, hc]
    rfl
  have husing : usingAt (implSwap g p .empty) p = c.usingCells := by
    rw [usingAt, hswap]
  obtain ⟨cq', hcq', him, hu, hcal⟩ := unhook_cell_fields (implSwap g p .empty) p p _ hswap
  rw [if_pos rfl] at hu
  rw [husing, if_neg hns] at hcal
  have hstrip := resetCacheF_strip
    (totalSlots (unhookStage (implSwap g p .empty) p) + 1)
    (unhookStage (implSwap g p .empty) p) p true p
  rw [hcq'] at hstrip
  cases hfin : cellAt (ResetCache (totalSlots (unhookStage (implSwap g p .empty) p) + 1)
      (unhookStage (implSwap g p .empty) p) p true) p with
  | none =>
    rw [hfin] at hstrip
    exact absurd hstrip (by simp)
  | some c2 =>
    rw [hfin] at hstrip
    simp only [Option.map, Option.some.injEq] at hstrip
    have hu2 := congrArg Cell.usingCells hstrip
    have hc2 := congrArg Cell.calculatedCells hstrip
    dsimp only at hu2 hc2
    exact ⟨c2, rfl, by rw [hu2, hu], by rw [hc2, hcal]⟩

theorem ginv_ClearCell (g : Sheet) (p : Position) (h : GInv g) : GInv (ClearCell g p).2 := by
  rw [ClearCell]
  by_cases hp : p.IsValid
  · rw [if_pos hp]
    cases hslot : slotAt g p with
    | none => exact h
    | some o =>
      cases o with
      | none => exact h
      | some c =>
        dsimp only
        have hc : cellAt g p = some c := cellAt_of_slot g p c hp hslot
        have h1 : GInv (CellSet g p "").2 := ginv_CellSet g p "" (by rw [hc]; rfl) h
        by_cases hcalc : calcAt (CellSet g p "").2 p = []
        · rw [if_pos hcalc]
          have hnself : p ∉ c.usingCells := (h.2.2.1 p c hc).1
          obtain ⟨c2, hc2, hu2, hcal2⟩ := clearSet_fields g p c hnself hc
          apply ginv_remove _ p c2 hc2 ?_ hu2 h1
          unfold calcAt at hcalc
          rw [hc2] at hcalc
          exact hcalc
        · rw [if_neg hcalc]
          exact h1
  · rw [if_neg hp]
    exact h

theorem ClearCell_keeps (g : Sheet) (p q : Position) (cd : Cell) (h : GInv g)
    (hq : cellAt g q = some cd) (hne : cd.calculatedCells ≠ []) :
    (cellAt (ClearCell g p).2 q).isSome := by
  rw [ClearCell]
  by_cases hp : p.IsValid
  · rw [if_pos hp]
    cases hslot : slotAt g p with
    | none => rw [hq]; rfl
    | some o =>
      cases o with
      | none => rw [hq]; rfl
      | some c =>
        dsimp only
        have hc : cellAt g p = some c := cellAt_of_slot g p c hp hslot
        have hq1 : (cellAt (CellSet g p "").2 q).isSome :=
          CellSet_isSome g p "" q (by rw [hq]; rfl)
        by_cases hcalc : calcAt (CellSet g p "").2 p = []
        · rw [if_pos hcalc]
          by_cases hqp : q = p
          · exfalso
            have hnself : p ∉ c.usingCells := (h.2.2.1 p c hc).1
            obtain ⟨c2, hc2, hu2, hcal2⟩ := clearSet_fields g p c hnself hc
            rw [hqp] at hq
            rw [hq] at hc
            have hcd : cd = c := by
              injection hc
            unfold calcAt at hcalc
            rw [hc2] at hcalc
            dsimp only at hcalc
            rw [hcal2] at hcalc
            rw [← hcd] at hcalc
            exact hne hcalc
          · rw [cellAt_setSlot_ne _ p none q hqp]
            exact hq1
        · rw [if_neg hcalc]
          exact hq1
  · rw [if_neg hp]
    rw [hq]
    rfl

theorem getValueF_isSome (pn : String → Option Rat) (f : Nat) (g : Sheet) (p r : Position)
    (h : (cellAt g r).isSome) : (cellAt (GetValueF pn f g p).2 r).isSome := by
  rw [strip_eq_isSome _ _ (getValueF_strip pn f g p r)]
  exact h

theorem ginv_step (g g' : Sheet) (h : GInv g) (hs : SheetStep g g') : GInv g' := by
  cases hs with
  | set p t => exact ginv_SetCell g p t h
  | clear p => exact ginv_ClearCell g p h
  | read pn f p => exact ginv_of_strip g _ (fun q => getValueF_strip pn f g p q) h

theorem reachable_ginv (g : Sheet) (h : ReachableSheet g) : GInv g := by
  induction h with
  | empty => exact ginv_empty
  | step hr hs ih => exact ginv_step _ _ ih hs

/-- C3: every public operation — SetCell, ClearCell, and a value read — taken
from a reachable sheet preserves the edge-symmetry invariant (a position `b`
is in `a`'s `using_cells_` exactly when `a` is in `b`'s `calculated_cells_`),
and never deallocates a cell whose `calculated_cells_` (used_by) set is
non-empty. -/
theorem c3_edge_symmetry_no_dealloc :
    ∀ g g', ReachableSheet g → SheetStep g g' →
      EdgeSymm g' ∧
      (∀ q cd, cellAt g q = some cd → cd.calculatedCells ≠ [] →
        (cellAt g' q).isSome) := by
  intro g g' hr hs
  have hg := reachable_ginv g hr
  have hg2 := ginv_step g g' hg hs
  refine ⟨hg2.1, ?_⟩
  intro q cd hq hne
  cases hs with
  | set p t => exact SetCell_isSome g p t q (by rw [hq]; rfl)
  | clear p => exact ClearCell_keeps g p q cd hg hq hne
  | read pn f p => exact getValueF_isSome pn f g p q (by rw [hq]; rfl)

theorem c3_witness :
    EdgeSymm (SetCell [] ⟨0, 0⟩ "hi").2 ∧
    (∀ q cd, cellAt ([] : Sheet) q = some cd → cd.calculatedCells ≠ [] →
      (cellAt (SetCell [] ⟨0, 0⟩ "hi").2 q).isSome) :=
  c3_edge_symmetry_no_dealloc [] (SetCell [] ⟨0, 0⟩ "hi").2 ReachableSheet.empty
    (SheetStep.set [] ⟨0, 0⟩ "hi")

/-- C10: TextImpl::GetValue throws exactly when the stored text is empty
(modelled as the `none` result of `textImplGetValue`), and the throwing
branch is unreachable through the public interface: on every sheet reachable
by public operations a TextImpl stores non-empty text, so GetValue always
produces a value. -/
theorem c10_text_getvalue_throw_unreachable :
    textImplGetValue "" = none ∧
    (∀ g, ReachableSheet g → ∀ a ca s, cellAt g a = some ca →
      ca.impl = .text s → (textImplGetValue s).isSome) := by
  constructor
  · rfl
  · intro g hr a ca s ha hs
    have hg := reachable_ginv g hr
    have hne := hg.2.2.2 a ca s ha hs
    unfold textImplGetValue
    rw [if_neg hne]
    by_cases hesc : s.front = ESCAPE_SIGN
    · rw [if_pos hesc]
      rfl
    · rw [if_neg hesc]
      rfl
